import Mathlib

/-!
Verification model of the Lead-Management application core
(`lead_manager.py`).  Strings are modelled as `List Char`, the pandas
DataFrame of leads as a list of labelled association-list rows, and each
method of `LeadManager` as a Lean function over that state.  External
collaborators (`LeadDatabase`, Streamlit UI) only receive notifications and
never alter the in-memory store, so they are not part of the state.
-/

set_option maxHeartbeats 1000000

namespace LeadMgr

abbrev Str := List Char

/-- Python `str.strip()` whitespace set (ASCII part, which is what the
application's data can contain). -/
def isWS (c : Char) : Bool :=
  c = ' ' || c = '\t' || c = '\n' || c = '\r' || c = '\x0b' || c = '\x0c'

/-- Python `s.strip()`: drop leading and trailing whitespace. -/
def strip (s : Str) : Str :=
  ((s.dropWhile isWS).reverse.dropWhile isWS).reverse

/-- Helper for splitting: prepend a character to the first fragment. -/
def consHead (a : Char) : List Str → List Str
  | [] => [[a]]
  | f :: fs => (a :: f) :: fs

/-- Python `s.split(sep)` for a one-character separator `sep`. -/
def splitChar (c : Char) : Str → List Str
  | [] => [[]]
  | a :: rest => if a = c then [] :: splitChar c rest else consHead a (splitChar c rest)

/-- Python `s.split("\r\n")`. -/
def splitCRLF : Str → List Str
  | [] => [[]]
  | [a] => [[a]]
  | a :: b :: rest =>
    if a = '\r' ∧ b = '\n' then [] :: splitCRLF rest
    else consHead a (splitCRLF (b :: rest))

/-- One separator of the splitting cascade: a single character or `"\r\n"`. -/
inductive Sep where
  | ch (c : Char)
  | crlf
deriving DecidableEq, Repr

def splitSep : Sep → Str → List Str
  | .ch c, s => splitChar c s
  | .crlf, s => splitCRLF s

/-- One pass of the cascade (`lead_manager.py` lines 83-87 / 109-113):
`new_values.extend([v.strip() for v in val.split(sep) if v.strip()])`. -/
def runPass (sep : Sep) (vals : List Str) : List Str :=
  vals.flatMap (fun v => ((splitSep sep v).map strip).filter (fun w => w ≠ []))

/-- Run the whole separator cascade starting from the single raw cell. -/
def cascade (seps : List Sep) (x : Str) : List Str :=
  seps.foldl (fun vals sep => runPass sep vals) [x]

/-- Separator order used by `_process_multiple_values` (line 80). -/
def procSeps : List Sep := [.ch ';', .ch ',', .ch '|', .ch '\n', .crlf]

/-- Separator order used by `get_multiple_emails` (line 106). -/
def emailSeps : List Sep := [.ch ',', .ch ';', .ch '|', .ch '\n', .crlf]

/-- Python `list(dict.fromkeys(l))`: deduplicate keeping first occurrences
(`seen` accumulates the keys already emitted). -/
def dedupFirstAux {α : Type} [DecidableEq α] (seen : List α) : List α → List α
  | [] => []
  | a :: rest =>
    if a ∈ seen then dedupFirstAux seen rest
    else a :: dedupFirstAux (a :: seen) rest

def dedupFirst {α : Type} [DecidableEq α] (l : List α) : List α := dedupFirstAux [] l

/-- The Value Splitter of `_process_multiple_values` (lines 80-90):
cascade of separators, strip, drop empties, deduplicate keeping order. -/
def splitValues (x : Str) : List Str := dedupFirst (cascade procSeps x)

/-- Python `', '.join(l)` (line 93). -/
def joinComma : List Str → Str
  | [] => []
  | [v] => v
  | v :: vs => v ++ (',' :: ' ' :: joinComma vs)

/-! ### Lemmas about `strip` -/

theorem strip_nil : strip [] = [] := rfl

theorem strip_cons_ws {a : Char} (h : isWS a) (t : Str) : strip (a :: t) = strip t := by
  simp [strip, List.dropWhile_cons, h]

/-- Both ends of a string are free of whitespace. -/
def strippedB (s : Str) : Bool :=
  s.head?.all (fun c => !isWS c) && s.reverse.head?.all (fun c => !isWS c)

theorem head?_append_left {α : Type} {p : List α} (q : List α) (h : p ≠ []) :
    (p ++ q).head? = p.head? := by
  cases p with
  | nil => exact absurd rfl h
  | cons a t => rfl

theorem strip_eq_self_of_strippedB {s : Str} (h : strippedB s) : strip s = s := by
  cases s with
  | nil => rfl
  | cons a t =>
    simp only [strippedB, Bool.and_eq_true, List.head?_cons, Option.all_some,
      Bool.not_eq_true'] at h
    obtain ⟨h1, h2⟩ := h
    have hd : (a :: t).dropWhile isWS = a :: t := by
      simp [List.dropWhile_cons, h1]
    simp only [strip, hd]
    cases hr : (a :: t).reverse with
    | nil => simp at hr
    | cons b u =>
      have hb : isWS b = false := by
        rw [hr] at h2; simpa using h2
      rw [List.dropWhile_cons]
      simp only [hb, Bool.false_eq_true, if_false]
      rw [← hr, List.reverse_reverse]

theorem not_ws_head_dropWhile {z : Str} {a : Char} {t : Str}
    (h : z.dropWhile isWS = a :: t) : isWS a = false := by
  induction z with
  | nil => simp at h
  | cons c z' ih =>
    rw [List.dropWhile_cons] at h
    by_cases hc : isWS c
    · simp only [hc, if_true] at h; exact ih h
    · simp only [hc, if_false] at h
      cases h; simpa using hc

/-- The result of `strip` has no whitespace at either end. -/
theorem strippedB_strip (s : Str) : strippedB (strip s) := by
  set w := s.dropWhile isWS with hw
  have hsplit : (List.takeWhile isWS w.reverse) ++ (List.dropWhile isWS w.reverse)
      = w.reverse := List.takeWhile_append_dropWhile _ _
  have hstrip : strip s = (w.reverse.dropWhile isWS).reverse := rfl
  -- tail end of the strip: it is the head of a `dropWhile isWS`, hence not WS
  have htail : (strip s).reverse.head?.all (fun c => !isWS c) := by
    rw [hstrip, List.reverse_reverse]
    cases hd : w.reverse.dropWhile isWS with
    | nil => simp
    | cons b u => simpa using (not_ws_head_dropWhile hd)
  -- head end: `strip s` is an initial chunk of `w`, whose head is not WS
  have hhead : (strip s).head?.all (fun c => !isWS c) := by
    cases hd : w.reverse.dropWhile isWS with
    | nil => simp [hstrip, hd]
    | cons b u =>
      have hw2 : w = (w.reverse.dropWhile isWS).reverse
          ++ (List.takeWhile isWS w.reverse).reverse := by
        have h3 := congrArg List.reverse hsplit
        rw [List.reverse_append, List.reverse_reverse] at h3
        exact h3.symm
      rw [hd] at hw2
      have hne : ((b :: u) : Str).reverse ≠ [] := by simp
      have hheads : w.head? = (strip s).head? := by
        rw [hstrip, hd, hw2, head?_append_left _ hne]
      cases hw0 : w with
      | nil =>
        rw [hw0] at hheads; simp only [List.head?_nil] at hheads
        simp [← hheads]
      | cons c0 t0 =>
        have hc0 : isWS c0 = false := not_ws_head_dropWhile (hw.symm.trans hw0)
        rw [hw0] at hheads
        simp only [List.head?_cons] at hheads
        rw [← hheads]; simpa using hc0
  simp only [strippedB, Bool.and_eq_true]
  exact ⟨hhead, htail⟩

theorem strip_idem (s : Str) : strip (strip s) = strip s :=
  strip_eq_self_of_strippedB (strippedB_strip s)

theorem mem_strip_subset {s : Str} : ∀ x ∈ strip s, x ∈ s := by
  intro x hx
  simp only [strip, List.mem_reverse] at hx
  have h1 := (List.dropWhile_sublist (l := (s.dropWhile isWS).reverse) (p := isWS)).subset hx
  rw [List.mem_reverse] at h1
  exact (List.dropWhile_sublist (l := s) (p := isWS)).subset h1

theorem head_not_ws_of_strippedB {a : Char} {t : Str} (h : strippedB (a :: t)) :
    isWS a = false := by
  simp only [strippedB, Bool.and_eq_true, List.head?_cons, Option.all_some,
    Bool.not_eq_true'] at h
  exact h.1

/-! ### Lemmas about `splitChar` and `splitCRLF` -/

theorem consHead_ne_nil (a : Char) (l : List Str) : consHead a l ≠ [] := by
  cases l <;> simp [consHead]

theorem splitChar_ne_nil (c : Char) (s : Str) : splitChar c s ≠ [] := by
  induction s with
  | nil => simp [splitChar]
  | cons a rest ih =>
    by_cases h : a = c <;> simp [splitChar, h, consHead_ne_nil]

theorem splitChar_of_not_mem {c : Char} {s : Str} (h : c ∉ s) : splitChar c s = [s] := by
  induction s with
  | nil => rfl
  | cons a rest ih =>
    simp only [List.mem_cons, not_or] at h
    have := ih h.2
    simp [splitChar, Ne.symm h.1, this, consHead]

theorem mem_splitChar_subset {c : Char} {s m : Str} (hm : m ∈ splitChar c s) :
    ∀ x ∈ m, x ∈ s := by
  induction s generalizing m with
  | nil =>
    simp only [splitChar, List.mem_singleton] at hm
    subst hm; simp
  | cons a rest ih =>
    intro x hx
    by_cases h : a = c
    · simp only [splitChar, h, if_true] at hm
      rcases List.mem_cons.mp hm with hm | hm
      · subst hm; simp at hx
      · exact List.mem_cons_of_mem _ (ih hm x hx)
    · simp only [splitChar, h, if_false] at hm
      cases hsp : splitChar c rest with
      | nil => exact absurd hsp (splitChar_ne_nil c rest)
      | cons f fs =>
        rw [hsp] at hm
        simp only [consHead, List.mem_cons] at hm
        rcases hm with hm | hm
        · subst hm
          rcases List.mem_cons.mp hx with hx | hx
          · simp [hx]
          · exact List.mem_cons_of_mem _ (ih (hsp ▸ List.mem_cons_self f fs) x hx)
        · exact List.mem_cons_of_mem _ (ih (hsp ▸ List.mem_cons_of_mem f hm) x hx)

theorem not_mem_of_mem_splitChar {c : Char} {s m : Str} (hm : m ∈ splitChar c s) :
    c ∉ m := by
  induction s generalizing m with
  | nil =>
    simp only [splitChar, List.mem_singleton] at hm
    subst hm; simp
  | cons a rest ih =>
    by_cases h : a = c
    · simp only [splitChar, h, if_true] at hm
      rcases List.mem_cons.mp hm with hm | hm
      · subst hm; simp
      · exact ih hm
    · simp only [splitChar, h, if_false] at hm
      cases hsp : splitChar c rest with
      | nil => exact absurd hsp (splitChar_ne_nil c rest)
      | cons f fs =>
        rw [hsp] at hm
        simp only [consHead, List.mem_cons] at hm
        rcases hm with hm | hm
        · subst hm
          have hf : c ∉ f := ih (hsp ▸ List.mem_cons_self f fs)
          simp only [List.mem_cons, not_or]
          exact ⟨Ne.symm h, hf⟩
        · exact ih (hsp ▸ List.mem_cons_of_mem f hm)

theorem splitChar_sep_append {c : Char} {a b : Str} (h : c ∉ a) :
    splitChar c (a ++ c :: b) = a :: splitChar c b := by
  induction a with
  | nil => simp [splitChar]
  | cons x xs ih =>
    simp only [List.mem_cons, not_or] at h
    have := ih h.2
    simp [splitChar, Ne.symm h.1, this, consHead]

theorem splitCRLF_ne_nil (s : Str) : splitCRLF s ≠ [] := by
  induction s using splitCRLF.induct with
  | case1 => simp [splitCRLF]
  | case2 => simp [splitCRLF]
  | case3 a b rest h ih => simp [splitCRLF, h]
  | case4 a b rest h ih => simp [splitCRLF, h, consHead_ne_nil]

theorem splitCRLF_of_not_mem {s : Str} (h : ('\n' : Char) ∉ s) : splitCRLF s = [s] := by
  induction s using splitCRLF.induct with
  | case1 => rfl
  | case2 => rfl
  | case3 a b rest hab ih =>
    exact absurd (by simp [hab.2]) h
  | case4 a b rest hab ih =>
    simp only [List.mem_cons, not_or] at h
    have := ih (by simp [h.2.1, h.2.2])
    simp [splitCRLF, hab, this, consHead]

theorem mem_splitCRLF_subset {s m : Str} (hm : m ∈ splitCRLF s) : ∀ x ∈ m, x ∈ s := by
  induction s using splitCRLF.induct generalizing m with
  | case1 =>
    simp only [splitCRLF, List.mem_singleton] at hm
    subst hm; simp
  | case2 a =>
    simp only [splitCRLF, List.mem_singleton] at hm
    subst hm; simp
  | case3 a b rest hab ih =>
    intro x hx
    simp only [splitCRLF, hab, and_self, if_true, List.mem_cons] at hm
    rcases hm with hm | hm
    · subst hm; simp at hx
    · exact List.mem_cons_of_mem _ (List.mem_cons_of_mem _ (ih hm x hx))
  | case4 a b rest hab ih =>
    intro x hx
    simp only [splitCRLF, hab, if_false] at hm
    cases hsp : splitCRLF (b :: rest) with
    | nil => exact absurd hsp (splitCRLF_ne_nil _)
    | cons f fs =>
      rw [hsp] at hm
      simp only [consHead, List.mem_cons] at hm
      rcases hm with hm | hm
      · subst hm
        rcases List.mem_cons.mp hx with hx | hx
        · simp [hx]
        · exact List.mem_cons_of_mem _ (ih (hsp ▸ List.mem_cons_self f fs) x hx)
      · exact List.mem_cons_of_mem _ (ih (hsp ▸ List.mem_cons_of_mem f hm) x hx)

/-! ### Lemmas about `runPass`, `cascade`, `dedupFirst`, `joinComma` -/

/-- Characterisation of fragments produced by one pass. -/
theorem mem_runPass {sep : Sep} {vals : List Str} {m : Str} (hm : m ∈ runPass sep vals) :
    m ≠ [] ∧ strippedB m ∧ ∃ v ∈ vals, ∃ f ∈ splitSep sep v, m = strip f := by
  simp only [runPass, List.mem_flatMap, List.mem_filter, List.mem_map] at hm
  obtain ⟨v, hv, ⟨⟨f, hf, hfm⟩, hne⟩⟩ := hm
  refine ⟨by simpa using hne, ?_, v, hv, f, hf, hfm.symm⟩
  rw [← hfm]; exact strippedB_strip f

theorem mem_runPass_subset {sep : Sep} {vals : List Str} {m : Str}
    (hm : m ∈ runPass sep vals) : ∃ v ∈ vals, ∀ x ∈ m, x ∈ v := by
  obtain ⟨-, -, v, hv, f, hf, hfm⟩ := mem_runPass hm
  refine ⟨v, hv, fun x hx => ?_⟩
  subst hfm
  have hxf : x ∈ f := mem_strip_subset x hx
  cases sep with
  | ch c => exact mem_splitChar_subset hf x hxf
  | crlf => exact mem_splitCRLF_subset hf x hxf

theorem not_mem_runPass_ch {c : Char} {vals : List Str} {m : Str}
    (hm : m ∈ runPass (.ch c) vals) : c ∉ m := by
  obtain ⟨-, -, v, hv, f, hf, hfm⟩ := mem_runPass hm
  subst hfm
  intro hc
  exact not_mem_of_mem_splitChar hf (mem_strip_subset c hc)

/-- If every value lacks its separator and is nonempty and stripped, a pass
is the identity. -/
theorem runPass_id {sep : Sep} {vals : List Str}
    (h : ∀ m ∈ vals, m ≠ [] ∧ strippedB m ∧
      (match sep with | .ch c => c ∉ m | .crlf => ('\n' : Char) ∉ m)) :
    runPass sep vals = vals := by
  induction vals with
  | nil => rfl
  | cons v vs ih =>
    have hv := h v (List.mem_cons_self v vs)
    have hsp : splitSep sep v = [v] := by
      cases sep with
      | ch c => exact splitChar_of_not_mem hv.2.2
      | crlf => exact splitCRLF_of_not_mem hv.2.2
    have hstr : strip v = v := strip_eq_self_of_strippedB hv.2.1
    have ihv := ih (fun m hm => h m (List.mem_cons_of_mem v hm))
    simp only [runPass, List.flatMap_cons] at ihv ⊢
    rw [hsp]
    simp only [List.map_cons, List.map_nil, hstr, List.filter_cons]
    have hdec : (decide (v ≠ []) = true) := by simpa using hv.1
    rw [if_pos hdec]
    simpa [runPass] using congrArg (List.cons v) ihv

theorem dedupFirst_nil {α : Type} [DecidableEq α] : dedupFirst ([] : List α) = [] := rfl

theorem mem_dedupFirstAux {α : Type} [DecidableEq α] {seen l : List α} {x : α} :
    x ∈ dedupFirstAux seen l ↔ x ∈ l ∧ x ∉ seen := by
  induction l generalizing seen with
  | nil => simp [dedupFirstAux]
  | cons a rest ih =>
    by_cases ha : a ∈ seen
    · rw [dedupFirstAux, if_pos ha, ih]
      constructor
      · rintro ⟨hx, hs⟩
        exact ⟨List.mem_cons_of_mem a hx, hs⟩
      · rintro ⟨hx, hs⟩
        rcases List.mem_cons.mp hx with rfl | hx
        · exact absurd ha hs
        · exact ⟨hx, hs⟩
    · rw [dedupFirstAux, if_neg ha]
      simp only [List.mem_cons, ih, List.mem_cons, not_or]
      constructor
      · rintro (rfl | ⟨hx, hne, hs⟩)
        · exact ⟨Or.inl rfl, ha⟩
        · exact ⟨Or.inr hx, hs⟩
      · rintro ⟨rfl | hx, hs⟩
        · exact Or.inl rfl
        · by_cases hxa : x = a
          · exact Or.inl hxa
          · exact Or.inr ⟨hx, hxa, hs⟩

theorem mem_dedupFirst {α : Type} [DecidableEq α] {l : List α} {x : α} :
    x ∈ dedupFirst l ↔ x ∈ l := by
  rw [dedupFirst, mem_dedupFirstAux]
  simp

theorem nodup_dedupFirstAux {α : Type} [DecidableEq α] {l : List α} (seen : List α) :
    (dedupFirstAux seen l).Nodup := by
  induction l generalizing seen with
  | nil => simp [dedupFirstAux]
  | cons a rest ih =>
    by_cases ha : a ∈ seen
    · rw [dedupFirstAux, if_pos ha]; exact ih seen
    · rw [dedupFirstAux, if_neg ha]
      refine List.nodup_cons.mpr ⟨?_, ih (a :: seen)⟩
      intro hmem
      exact (mem_dedupFirstAux.mp hmem).2 (List.mem_cons_self a seen)

theorem nodup_dedupFirst {α : Type} [DecidableEq α] (l : List α) :
    (dedupFirst l).Nodup := nodup_dedupFirstAux []

theorem dedupFirstAux_eq_self {α : Type} [DecidableEq α] {l seen : List α}
    (h : l.Nodup) (hd : ∀ a ∈ l, a ∉ seen) : dedupFirstAux seen l = l := by
  induction l generalizing seen with
  | nil => rfl
  | cons a rest ih =>
    obtain ⟨ha, hrest⟩ := List.nodup_cons.mp h
    rw [dedupFirstAux, if_neg (hd a (List.mem_cons_self a rest))]
    congr 1
    refine ih hrest ?_
    intro b hb
    simp only [List.mem_cons, not_or]
    exact ⟨fun hba => ha (hba ▸ hb), hd b (List.mem_cons_of_mem a hb)⟩

theorem dedupFirst_eq_self {α : Type} [DecidableEq α] {l : List α} (h : l.Nodup) :
    dedupFirst l = l := dedupFirstAux_eq_self h (by simp)

theorem joinComma_ne_nil {L : List Str} (hne : L ≠ []) (h : ∀ m ∈ L, m ≠ []) :
    joinComma L ≠ [] := by
  cases L with
  | nil => exact absurd rfl hne
  | cons l ls =>
    cases ls with
    | nil => exact h l (by simp)
    | cons l2 ls2 =>
      simp only [joinComma]
      intro hcontra
      have := congrArg List.length hcontra
      simp only [List.length_append, List.length_cons, List.length_nil] at this
      omega

theorem mem_joinComma {L : List Str} {x : Char} (hx : x ∈ joinComma L) :
    (∃ m ∈ L, x ∈ m) ∨ x = ',' ∨ x = ' ' := by
  induction L with
  | nil => simp [joinComma] at hx
  | cons l ls ih =>
    cases ls with
    | nil =>
      simp only [joinComma] at hx
      exact Or.inl ⟨l, by simp, hx⟩
    | cons l2 ls2 =>
      simp only [joinComma, List.mem_append, List.mem_cons] at hx
      rcases hx with hx | hx | hx | hx
      · exact Or.inl ⟨l, by simp, hx⟩
      · exact Or.inr (Or.inl hx)
      · exact Or.inr (Or.inr hx)
      · rcases ih hx with ⟨m, hm, hxm⟩ | h2
        · exact Or.inl ⟨m, List.mem_cons_of_mem _ hm, hxm⟩
        · exact Or.inr h2

theorem head?_joinComma {l : Str} {ls : List Str} (hl : l ≠ []) :
    (joinComma (l :: ls)).head? = l.head? := by
  cases ls with
  | nil => rfl
  | cons l2 ls2 =>
    simp only [joinComma]
    exact head?_append_left _ hl

theorem revhead_joinComma {ls : List Str} {l : Str} (h : ∀ m ∈ l :: ls, m ≠ []) :
    ∃ m ∈ l :: ls, (joinComma (l :: ls)).reverse.head? = m.reverse.head? := by
  induction ls generalizing l with
  | nil => exact ⟨l, by simp, rfl⟩
  | cons l2 ls2 ih =>
    have hjoin : joinComma (l :: l2 :: ls2) = l ++ (',' :: ' ' :: joinComma (l2 :: ls2)) := rfl
    have hrec := ih (l := l2) (fun m hm => h m (List.mem_cons_of_mem l hm))
    obtain ⟨m, hm, hmeq⟩ := hrec
    have hne2 : joinComma (l2 :: ls2) ≠ [] :=
      joinComma_ne_nil (by simp) (fun m hm => h m (List.mem_cons_of_mem l hm))
    refine ⟨m, List.mem_cons_of_mem l hm, ?_⟩
    rw [hjoin, List.reverse_append]
    have h1 : ((',' :: ' ' :: joinComma (l2 :: ls2)).reverse : Str)
        = (joinComma (l2 :: ls2)).reverse ++ [' ', ','] := by simp
    rw [h1, List.append_assoc,
      head?_append_left _ (by simpa using hne2), hmeq]

/-- Splitting a comma-joined list of comma-free items on `','`. -/
theorem splitChar_joinComma {L : List Str} {l : Str}
    (h : ∀ m ∈ l :: L, (',' : Char) ∉ m) :
    splitChar ',' (joinComma (l :: L)) = l :: L.map (fun m => ' ' :: m) := by
  induction L generalizing l with
  | nil =>
    simp only [joinComma, List.map_nil]
    exact splitChar_of_not_mem (h l (by simp))
  | cons l2 ls2 ih =>
    have hjoin : joinComma (l :: l2 :: ls2) = l ++ (',' :: (' ' :: joinComma (l2 :: ls2))) := rfl
    rw [hjoin, splitChar_sep_append (h l (by simp))]
    have hrec := ih (l := l2) (fun m hm => h m (List.mem_cons_of_mem l hm))
    have hsp : splitChar ',' (' ' :: joinComma (l2 :: ls2))
        = consHead ' ' (splitChar ',' (joinComma (l2 :: ls2))) := by
      simp [splitChar]
    rw [hsp, hrec]
    simp [consHead]

/-! ### The Value Splitter is idempotent -/

theorem cascade_proc_unfold (x : Str) :
    cascade procSeps x
      = runPass .crlf (runPass (.ch '\n') (runPass (.ch '|') (runPass (.ch ',')
          (runPass (.ch ';') [x])))) := rfl

/-- Every fragment produced by the `_process_multiple_values` cascade is
nonempty, stripped, and free of all four separator characters. -/
theorem cascade_invariant {x m : Str} (hm : m ∈ cascade procSeps x) :
    m ≠ [] ∧ strippedB m ∧ (';' : Char) ∉ m ∧ (',' : Char) ∉ m ∧
      ('|' : Char) ∉ m ∧ ('\n' : Char) ∉ m := by
  rw [cascade_proc_unfold] at hm
  obtain ⟨hne, hstr, -⟩ := mem_runPass hm
  obtain ⟨v4, hv4, hsub4⟩ := mem_runPass_subset hm
  obtain ⟨v3, hv3, hsub3⟩ := mem_runPass_subset hv4
  obtain ⟨v2, hv2, hsub2⟩ := mem_runPass_subset hv3
  obtain ⟨v1, hv1, hsub1⟩ := mem_runPass_subset hv2
  refine ⟨hne, hstr, ?_, ?_, ?_, ?_⟩
  · intro hc
    exact not_mem_runPass_ch hv1 (hsub1 _ (hsub2 _ (hsub3 _ (hsub4 _ hc))))
  · intro hc
    exact not_mem_runPass_ch hv2 (hsub2 _ (hsub3 _ (hsub4 _ hc)))
  · intro hc
    exact not_mem_runPass_ch hv3 (hsub3 _ (hsub4 _ hc))
  · intro hc
    exact not_mem_runPass_ch hv4 (hsub4 _ hc)

theorem splitValues_invariant {x m : Str} (hm : m ∈ splitValues x) :
    m ≠ [] ∧ strippedB m ∧ (';' : Char) ∉ m ∧ (',' : Char) ∉ m ∧
      ('|' : Char) ∉ m ∧ ('\n' : Char) ∉ m :=
  cascade_invariant (mem_dedupFirst.mp hm)

theorem splitValues_nodup (x : Str) : (splitValues x).Nodup :=
  nodup_dedupFirst _

theorem splitValues_nil : splitValues [] = [] := by
  have h : cascade procSeps [] = [] := rfl
  rw [splitValues, h]
  exact dedupFirst_nil

theorem strippedB_joinComma {l : Str} {ls : List Str}
    (h : ∀ m ∈ l :: ls, m ≠ [] ∧ strippedB m) : strippedB (joinComma (l :: ls)) := by
  have hl := h l (List.mem_cons_self l ls)
  obtain ⟨m, hm, hmeq⟩ := revhead_joinComma (fun m hm => (h m hm).1)
  have hmprop := h m hm
  simp only [strippedB, Bool.and_eq_true] at hmprop ⊢
  constructor
  · rw [head?_joinComma hl.1]
    cases hl0 : l with
    | nil => exact absurd hl0 hl.1
    | cons a t =>
      have := head_not_ws_of_strippedB (hl0 ▸ hl.2)
      simpa using this
  · rw [hmeq]
    exact hmprop.2.2

theorem not_mem_joinComma {c : Char} {L : List Str}
    (hc : ∀ m ∈ L, c ∉ m) (h1 : c ≠ ',') (h2 : c ≠ ' ') : c ∉ joinComma L := by
  intro hmem
  rcases mem_joinComma hmem with ⟨m, hm, hcm⟩ | h | h
  · exact hc m hm hcm
  · exact h1 h
  · exact h2 h

/-- Splitting the `", "`-joined fragments on `','` and re-stripping
recovers the fragments. -/
theorem runPass_comma_join {l : Str} {ls : List Str}
    (h : ∀ m ∈ l :: ls, m ≠ [] ∧ strippedB m ∧ (',' : Char) ∉ m) :
    runPass (.ch ',') [joinComma (l :: ls)] = l :: ls := by
  have hsp : splitChar ',' (joinComma (l :: ls)) = l :: ls.map (fun m => ' ' :: m) :=
    splitChar_joinComma (fun m hm => (h m hm).2.2)
  simp only [runPass, List.flatMap_cons, List.flatMap_nil, List.append_nil, splitSep]
  rw [hsp]
  have hstripl : strip l = l := strip_eq_self_of_strippedB (h l (by simp)).2.1
  have hmap : (ls.map (fun m => ' ' :: m)).map strip = ls := by
    rw [List.map_map]
    have : ∀ m ∈ ls, (strip ∘ fun m => ' ' :: m) m = id m := by
      intro m hm
      simp only [Function.comp_apply, id_eq]
      rw [strip_cons_ws (by simp [isWS])]
      exact strip_eq_self_of_strippedB (h m (List.mem_cons_of_mem l hm)).2.1
    rw [List.map_congr_left this, List.map_id]
  simp only [List.map_cons, hstripl, hmap]
  rw [List.filter_eq_self.mpr]
  intro m hm
  rcases List.mem_cons.mp hm with rfl | hm'
  · simpa using (h m (by simp)).1
  · simpa using (h m (List.mem_cons_of_mem l hm')).1

/-- Idempotence of the Value Splitter: re-splitting the `", "`-joined
result gives the result back. -/
theorem splitValues_idem (x : Str) :
    splitValues (joinComma (splitValues x)) = splitValues x := by
  have hinv := fun m (hm : m ∈ splitValues x) => splitValues_invariant hm
  have hnodup := splitValues_nodup x
  cases hL : splitValues x with
  | nil => simp [joinComma, splitValues_nil]
  | cons l ls =>
    rw [hL] at hinv hnodup
    set j := joinComma (l :: ls) with hj
    have hinv' : ∀ m ∈ l :: ls, m ≠ [] ∧ strippedB m ∧ (';' : Char) ∉ m ∧
        (',' : Char) ∉ m ∧ ('|' : Char) ∉ m ∧ ('\n' : Char) ∉ m := hinv
    have hjne : j ≠ [] := joinComma_ne_nil (by simp) (fun m hm => (hinv' m hm).1)
    have hjB : strippedB j := strippedB_joinComma (fun m hm => ⟨(hinv' m hm).1, (hinv' m hm).2.1⟩)
    have hsemi : runPass (.ch ';') [j] = [j] := by
      apply runPass_id
      intro m hm
      rcases List.mem_singleton.mp hm with rfl
      exact ⟨hjne, hjB,
        not_mem_joinComma (fun m hm => (hinv' m hm).2.2.1) (by decide) (by decide)⟩
    have hcomma : runPass (.ch ',') [j] = l :: ls :=
      runPass_comma_join (fun m hm => ⟨(hinv' m hm).1, (hinv' m hm).2.1, (hinv' m hm).2.2.2.1⟩)
    have hpipe : runPass (.ch '|') (l :: ls) = l :: ls :=
      runPass_id (fun m hm => ⟨(hinv' m hm).1, (hinv' m hm).2.1, (hinv' m hm).2.2.2.2.1⟩)
    have hnl : runPass (.ch '\n') (l :: ls) = l :: ls :=
      runPass_id (fun m hm => ⟨(hinv' m hm).1, (hinv' m hm).2.1, (hinv' m hm).2.2.2.2.2⟩)
    have hcrlf : runPass .crlf (l :: ls) = l :: ls :=
      runPass_id (fun m hm => ⟨(hinv' m hm).1, (hinv' m hm).2.1, (hinv' m hm).2.2.2.2.2⟩)
    calc splitValues j
        = dedupFirst (runPass .crlf (runPass (.ch '\n') (runPass (.ch '|')
            (runPass (.ch ',') (runPass (.ch ';') [j]))))) := by
          rw [splitValues, cascade_proc_unfold]
      _ = dedupFirst (l :: ls) := by rw [hsemi, hcomma, hpipe, hnl, hcrlf]
      _ = l :: ls := dedupFirst_eq_self hnodup

/-! ### Cell values and DataFrames

A cell holds a string, a boolean, an integer, a timestamp, or a null
(`None`/`NaN`). Timestamps are counted in minutes; a `vdate` stands for any
value `pd.to_datetime` can parse (strings that do not parse are `vstr` and
coerce to `NaT`). -/

inductive Val where
  | vnull
  | vstr (s : Str)
  | vbool (b : Bool)
  | vint (n : Int)
  | vdate (t : Int)
deriving DecidableEq, Repr

/-- A DataFrame: a list of column names plus rows, each row being an index
label together with an association list of cells. A column absent from a
row's cells reads as null. -/
structure DF where
  cols : List String
  rows : List (Int × List (String × Val))
deriving DecidableEq, Repr

/-- Lookup of the first cell with a given column name. -/
def findVal : List (String × Val) → String → Option Val
  | [], _ => none
  | p :: t, c => if p.1 = c then some p.2 else findVal t c

def getVal (r : List (String × Val)) (c : String) : Val :=
  (findVal r c).getD .vnull

/-- Cell write: replace every entry of the column, or append a new cell. -/
def setCell (r : List (String × Val)) (c : String) (v : Val) : List (String × Val) :=
  if (findVal r c).isSome then
    r.map (fun p => if p.1 = c then (c, v) else p)
  else r ++ [(c, v)]

/-- pandas `df.loc[idx, col] = v`: update every row labelled `idx`; if the
label is absent the assignment ENLARGES the frame with a fresh row (all
other cells null); if the column is new it is appended. -/
def locSet (df : DF) (idx : Int) (c : String) (v : Val) : DF :=
  let cols' := if c ∈ df.cols then df.cols else df.cols ++ [c]
  if df.rows.any (fun r => r.1 = idx) then
    ⟨cols', df.rows.map (fun r => if r.1 = idx then (r.1, setCell r.2 c v) else r)⟩
  else
    ⟨cols', df.rows ++ [(idx, [(c, v)])]⟩

/-- pandas `df[col] = const`: whole-column assignment. -/
def setColAll (df : DF) (c : String) (v : Val) : DF :=
  ⟨if c ∈ df.cols then df.cols else df.cols ++ [c],
   df.rows.map (fun r => (r.1, setCell r.2 c v))⟩

/-- String rendering used by `astype(str)` and f-strings. -/
def valToStr : Val → Str
  | .vnull => "None".toList
  | .vstr s => s
  | .vbool b => (if b then "True" else "False").toList
  | .vint n => (toString n).toList
  | .vdate t => "Timestamp".toList ++ (toString t).toList

def lowerStr (s : Str) : Str := s.map Char.toLower

/-- Python `small in big` on strings (and the substring test of
`str.contains` with plain-text patterns). -/
def strContains (big small : Str) : Bool :=
  (List.range (big.length + 1)).any (fun i => small.isPrefixOf (big.drop i))

/-- Case-insensitive containment: `str.contains(term, case=False)`. -/
def containsCi (big small : Str) : Bool :=
  strContains (lowerStr big) (lowerStr small)

/-- pandas `notna`. -/
def notna : Val → Bool
  | .vnull => false
  | _ => true

/-- `pd.to_datetime(col, errors='coerce')` on a single cell: parseable
date values (`vdate`) survive, everything else becomes `NaT` (`none`). -/
def toDT : Val → Option Int
  | .vdate t => some t
  | _ => none

/-- Minutes per day; `Timestamp.normalize()` floors to midnight. -/
def normalizeTS (t : Int) : Int := (t / 1440) * 1440

/-- Comparison used by `sort_values` on a datetime-typed key
(`NaN`s are placed last). -/
def optLe : Option Int → Option Int → Bool
  | none, none => true
  | none, some _ => false
  | some _, none => true
  | some a, some b => decide (a ≤ b)

/-- Stable insertion sort (only membership of the result matters for the
claims; pandas' quicksort is not stable anyway). -/
def insSorted {α : Type} (le : α → α → Bool) (a : α) : List α → List α
  | [] => [a]
  | b :: l => if le a b then a :: b :: l else b :: insSorted le a l

def insSort {α : Type} (le : α → α → Bool) : List α → List α
  | [] => []
  | a :: l => insSorted le a (insSort le l)

theorem mem_insSorted {α : Type} {le : α → α → Bool} {a x : α} {l : List α} :
    x ∈ insSorted le a l ↔ x = a ∨ x ∈ l := by
  induction l with
  | nil => simp [insSorted]
  | cons b t ih =>
    by_cases h : le a b
    · simp [insSorted, h]
    · rw [insSorted, if_neg h]
      simp only [List.mem_cons, ih]
      tauto

theorem mem_insSort {α : Type} {le : α → α → Bool} {x : α} {l : List α} :
    x ∈ insSort le l ↔ x ∈ l := by
  induction l with
  | nil => simp [insSort]
  | cons a t ih =>
    simp [insSort, mem_insSorted, ih]

/-- `value_counts().to_dict()` of a list of (non-null) values. -/
def valueCounts (vs : List Val) : List (Val × Nat) :=
  (dedupFirst vs).map (fun v => (v, vs.count v))

/-! ### The LeadManager state and operations (`lead_manager.py`) -/

/-- The in-memory state of a `LeadManager`: the leads table, the (already
truth-filtered) column mapping, and the original column list. Database and
audit-trail writes go to an external collaborator and are not state. -/
structure ManagerState where
  leads_df : DF
  column_mapping : List (String × String)
  original_columns : List String
deriving DecidableEq, Repr

/-- Lookup in the column mapping. -/
def findStr : List (String × String) → String → Option String
  | [], _ => none
  | p :: t, c => if p.1 = c then some p.2 else findStr t c

/-- `self.column_mapping.get(key, default)`. -/
def mapGet (m : List (String × String)) (k d : String) : String :=
  (findStr m k).getD d

/-- `has_data`: the frame exists and is non-empty (pandas `df.empty` is
true when either axis has length 0). -/
def hasData (s : ManagerState) : Bool :=
  !s.leads_df.rows.isEmpty && !s.leads_df.cols.isEmpty

def emptyDF : DF := ⟨[], []⟩

/-- Null-placeholder tokens replaced by `None` during cleaning (line 52). -/
def nullTokens : List Str := ["nan", "None", "NULL", "null", "<NA>", ""].map String.toList

/-- Column-name test for multi-value processing (lines 71-72). -/
def isMultiName (c : String) : Bool :=
  (["email", "mail", "e-mail"].any (fun k => strContains (lowerStr c.toList) (lowerStr k.toList)))
  || (["product", "item", "service", "offering"].any
        (fun k => strContains (lowerStr c.toList) (lowerStr k.toList)))

/-- `astype(str)` then replacement of the null placeholders, for one cell
of an object-dtype column (lines 50-54). -/
def cleanCellObj (v : Val) : Val :=
  let s := valToStr v
  if s ∈ nullTokens then .vnull else .vstr s

/-- `_process_multiple_values` on one cell (lines 76-93): re-split the cell
and re-join with `", "` when more than one distinct value appears. -/
def processCell (v : Val) : Val :=
  match v with
  | .vstr s =>
    if s ≠ [] ∧ s ≠ "None".toList then
      let u := splitValues s
      if u.length > 1 then .vstr (joinComma u) else .vstr s
    else .vstr s
  | w => w

/-- A column is object-dtype when it holds a string (numeric columns keep
their dtype and pass `pd.to_numeric` unchanged, lines 59-65). -/
def isObjectCol (df : DF) (c : String) : Bool :=
  df.rows.any (fun r => match getVal r.2 c with | .vstr _ => true | _ => false)

def cleanRow (objCols multiCols : List String) (r : List (String × Val)) :
    List (String × Val) :=
  r.map (fun p =>
    if p.1 ∈ objCols then
      let v := cleanCellObj p.2
      (p.1, if p.1 ∈ multiCols then processCell v else v)
    else p)

/-- `_clean_data_types` (lines 45-65). -/
def clean_data_types (df : DF) : DF :=
  let objCols := df.cols.filter (fun c => isObjectCol df c)
  let multiCols := objCols.filter isMultiName
  ⟨df.cols, df.rows.map (fun r => (r.1, cleanRow objCols multiCols r.2))⟩

/-- `_standardize_columns` (lines 189-195): copy each mapped column to its
semantic alias when the alias is not yet a column. -/
def standardize_columns (m : List (String × String)) (df : DF) : DF :=
  m.foldl (fun df p =>
    if p.2 ∈ df.cols ∧ p.1 ∉ df.cols then
      ⟨df.cols ++ [p.1], df.rows.map (fun r => (r.1, setCell r.2 p.1 (getVal r.2 p.2)))⟩
    else df) df

def addColConst (df : DF) (c : String) (v : Val) : DF := setColAll df c v

/-- `load_data` (lines 17-43): clean, inject the management columns,
standardize aliases. The database save is external. -/
def load_data (df : DF) (column_mapping : List (String × String)) : ManagerState :=
  let m := column_mapping.filter (fun p => p.2 ≠ "")
  let d := clean_data_types df
  let d := if "priority" ∈ d.cols then d else addColConst d "priority" (.vstr "Medium".toList)
  let d := if "follow_up_date" ∈ d.cols then d else addColConst d "follow_up_date" .vnull
  let d := if "last_contact" ∈ d.cols then d else addColConst d "last_contact" .vnull
  let d := if "follow_up_completed" ∈ d.cols then d
           else addColConst d "follow_up_completed" (.vbool false)
  let d := standardize_columns m d
  ⟨d, m, df.cols⟩

/-- `get_multiple_emails` (lines 95-121). `none` models the `KeyError`
raised by the `.loc` read on a missing label. -/
def get_multiple_emails (s : ManagerState) (lead_idx : Int) : Option (List Str) :=
  let email_col := mapGet s.column_mapping "email" "email"
  if email_col ∉ s.leads_df.cols then some [] else
  match s.leads_df.rows.find? (fun r => r.1 = lead_idx) with
  | none => none
  | some row =>
    match getVal row.2 email_col with
    | .vnull => some []
    | .vbool b => if b then none else some []
    | .vint n => if n = 0 then some [] else none
    | .vdate _ => none
    | .vstr sv =>
      if sv = [] ∨ sv = "None".toList then some [] else
      let emails := dedupFirst (cascade emailSeps sv)
      some ((emails.filter (fun e =>
        ('@' : Char) ∈ e ∧ ('.' : Char) ∈ (splitChar '@' e).getLastD [])))

/-- `update_lead_status` (lines 256-274). `todayS` is
`datetime.now().strftime('%Y-%m-%d')`. -/
def update_lead_status (s : ManagerState) (lead_idx : Int) (new_status todayS : Str) :
    ManagerState :=
  if !hasData s then s else
  let sc0 := mapGet s.column_mapping "status" "status"
  let (df, status_col) :=
    if sc0 ∈ s.leads_df.cols then (s.leads_df, sc0)
    else (setColAll s.leads_df "status" .vnull, "status")
  let df := locSet df lead_idx status_col (.vstr new_status)
  let df := locSet df lead_idx "last_contact" (.vstr todayS)
  { s with leads_df := df }

/-- `update_lead_priority` (lines 276-288). -/
def update_lead_priority (s : ManagerState) (lead_idx : Int) (new_priority : Str) :
    ManagerState :=
  if !hasData s then s else
  { s with leads_df := locSet s.leads_df lead_idx "priority" (.vstr new_priority) }

/-- `schedule_followup` (lines 290-308); `d` is `pd.Timestamp(follow_up_date)`. -/
def schedule_followup (s : ManagerState) (lead_idx : Int) (d : Int) : ManagerState :=
  if !hasData s then s else
  let df := locSet s.leads_df lead_idx "follow_up_date" (.vdate d)
  let df := locSet df lead_idx "follow_up_completed" (.vbool false)
  { s with leads_df := df }

/-- `add_note` (lines 310-332). `none` models the `KeyError` raised by the
`.loc` read on a missing label; `nowS` is the `'%Y-%m-%d %H:%M'` stamp. -/
def add_note (s : ManagerState) (lead_idx : Int) (note nowS : Str) : Option ManagerState :=
  if !hasData s || strip note = [] then some s else
  let nc0 := mapGet s.column_mapping "notes" "notes"
  let (df, notes_col) :=
    if nc0 ∈ s.leads_df.cols then (s.leads_df, nc0)
    else (setColAll s.leads_df "notes" (.vstr []), "notes")
  match df.rows.find? (fun r => r.1 = lead_idx) with
  | none => none
  | some row =>
    let current := getVal row.2 notes_col
    let stamp := ('[' :: nowS) ++ (']' :: ' ' :: note)
    let newNote : Str :=
      if current = .vnull ∨ current = .vstr [] then stamp
      else valToStr current ++ ('\n' :: stamp)
    some { s with leads_df := locSet df lead_idx notes_col (.vstr newNote) }

/-- `complete_followup` (lines 413-425). -/
def complete_followup (s : ManagerState) (lead_idx : Int) (todayS : Str) : ManagerState :=
  if !hasData s then s else
  let df := locSet s.leads_df lead_idx "follow_up_completed" (.vbool true)
  let df := locSet df lead_idx "last_contact" (.vstr todayS)
  { s with leads_df := df }

/-! ### Query engine -/

/-- `get_filtered_leads` (lines 201-239): search, status, then priority
filter. All column accesses are membership-guarded in the source, so the
function is total. -/
def get_filtered_leads (s : ManagerState)
    (search_term status_filter priority_filter : Str) : DF :=
  if !hasData s then emptyDF else
  let df0 := s.leads_df
  let df1 :=
    if search_term ≠ [] then
      let search_columns := ["name", "email", "company"].foldl (fun acc col =>
        if col ∈ df0.cols then acc ++ [col]
        else match findStr s.column_mapping col with
          | some mc => if mc ∈ df0.cols then acc ++ [mc] else acc
          | none => acc) []
      if search_columns ≠ [] then
        ⟨df0.cols, df0.rows.filter (fun r => search_columns.any (fun c =>
          if c ∈ df0.cols then containsCi (valToStr (getVal r.2 c)) search_term
          else false))⟩
      else df0
    else df0
  let df2 :=
    if status_filter ≠ "All".toList then
      let status_col := mapGet s.column_mapping "status" "status"
      if status_col ∈ df1.cols then
        ⟨df1.cols, df1.rows.filter (fun r =>
          containsCi (valToStr (getVal r.2 status_col)) status_filter)⟩
      else df1
    else df1
  if priority_filter ≠ "All".toList ∧ "priority" ∈ df2.cols then
    ⟨df2.cols, df2.rows.filter (fun r => getVal r.2 "priority" == Val.vstr priority_filter)⟩
  else df2

/-- Python string `<=` (code-point lexicographic). -/
def strLe : Str → Str → Bool
  | [], _ => true
  | _ :: _, [] => false
  | a :: s, b :: t => if a = b then strLe s t else decide (a < b)

/-- `get_unique_statuses` (lines 241-254). -/
def get_unique_statuses (s : ManagerState) : List Str :=
  if !hasData s then [] else
  let status_col := mapGet s.column_mapping "status" "status"
  if status_col ∈ s.leads_df.cols then
    let vals := ((s.leads_df.rows.map (fun r => getVal r.2 status_col)).filter
      (fun v => v ≠ .vnull)).map valToStr
    insSort strLe ((dedupFirst vals).filter (fun v => v ≠ [] ∧ v ≠ "nan".toList))
  else []

/-- Mask of `get_upcoming_followups` (lines 346-351); comparisons against
`NaT` are false. -/
def upcoming_mask (today : Int) (days_ahead : Nat) (r : List (String × Val)) : Bool :=
  notna (getVal r "follow_up_date") &&
  (getVal r "follow_up_completed" == Val.vbool false) &&
  (match toDT (getVal r "follow_up_date") with
   | some t => decide (today ≤ t) && decide (t ≤ today + 1440 * (days_ahead : Int))
   | none => false)

def rowDateLe (a b : Int × List (String × Val)) : Bool :=
  optLe (toDT (getVal a.2 "follow_up_date")) (toDT (getVal b.2 "follow_up_date"))

/-- `get_upcoming_followups` (lines 334-357); `today` is
`pd.Timestamp.now().normalize()`. `none` models the `KeyError` on a frame
missing the management columns. -/
def get_upcoming_followups (s : ManagerState) (today : Int) (days_ahead : Nat) :
    Option DF :=
  if !hasData s then some emptyDF else
  if "follow_up_date" ∈ s.leads_df.cols ∧ "follow_up_completed" ∈ s.leads_df.cols then
    let kept := s.leads_df.rows.filter (fun r => upcoming_mask today days_ahead r.2)
    some ⟨s.leads_df.cols, if kept.isEmpty then kept else insSort rowDateLe kept⟩
  else none

/-- Mask of `get_overdue_followups` (lines 370-374). -/
def overdue_mask (today : Int) (r : List (String × Val)) : Bool :=
  notna (getVal r "follow_up_date") &&
  (getVal r "follow_up_completed" == Val.vbool false) &&
  (match toDT (getVal r "follow_up_date") with
   | some t => decide (t < today)
   | none => false)

/-- `get_overdue_followups` (lines 359-380). -/
def get_overdue_followups (s : ManagerState) (today : Int) : Option DF :=
  if !hasData s then some emptyDF else
  if "follow_up_date" ∈ s.leads_df.cols ∧ "follow_up_completed" ∈ s.leads_df.cols then
    let kept := s.leads_df.rows.filter (fun r => overdue_mask today r.2)
    some ⟨s.leads_df.cols, if kept.isEmpty then kept else insSort rowDateLe kept⟩
  else none

/-- Mask of `get_daily_tasks` (lines 396-400): same calendar day. -/
def daily_mask (target : Int) (r : List (String × Val)) : Bool :=
  notna (getVal r "follow_up_date") &&
  (getVal r "follow_up_completed" == Val.vbool false) &&
  (match toDT (getVal r "follow_up_date") with
   | some t => normalizeTS t == target
   | none => false)

/-- `{'High': 3, 'Medium': 2, 'Low': 1}` lookup with `fillna(2)` (lines 405-406). -/
def priorityKey (r : List (String × Val)) : Int :=
  match getVal r "priority" with
  | .vstr p =>
    if p = "High".toList then 3 else if p = "Medium".toList then 2
    else if p = "Low".toList then 1 else 2
  | _ => 2

/-- Sort key of `get_daily_tasks`: priority_order descending, then
follow-up date ascending. -/
def dailyLe (a b : Int × List (String × Val)) : Bool :=
  let pa := match getVal a.2 "priority_order" with | .vint n => n | _ => 0
  let pb := match getVal b.2 "priority_order" with | .vint n => n | _ => 0
  if pa = pb then rowDateLe a b else decide (pb < pa)

/-- `get_daily_tasks` (lines 382-411): filter to the requested calendar
day, then sort by a temporary `priority_order` column which is dropped
again before returning. -/
def get_daily_tasks (s : ManagerState) (date : Int) : Option DF :=
  if !hasData s then some emptyDF else
  if "follow_up_date" ∈ s.leads_df.cols ∧ "follow_up_completed" ∈ s.leads_df.cols then
    let target := normalizeTS date
    let kept := s.leads_df.rows.filter (fun r => daily_mask target r.2)
    if kept.isEmpty then some ⟨s.leads_df.cols, kept⟩
    else if "priority" ∈ s.leads_df.cols then
      let withKey := kept.map (fun r => (r.1, setCell r.2 "priority_order" (.vint (priorityKey r.2))))
      let cols2 := if "priority_order" ∈ s.leads_df.cols then s.leads_df.cols
                   else s.leads_df.cols ++ ["priority_order"]
      let sorted := insSort dailyLe withKey
      some ⟨cols2.filter (fun c => c ≠ "priority_order"),
            sorted.map (fun r => (r.1, r.2.filter (fun p => p.1 ≠ "priority_order")))⟩
    else none
  else none

/-! ### Analytics aggregator -/

structure Analytics where
  total_leads : Nat
  active_followups : Nat
  overdue_tasks : Nat
  qualified_leads : Nat
  status_distribution : List (Val × Nat)
  priority_distribution : List (Val × Nat)
deriving DecidableEq, Repr

/-- `get_analytics` (lines 427-480); `today` is
`pd.Timestamp.now().normalize()`. -/
def get_analytics (s : ManagerState) (today : Int) : Option Analytics :=
  if !hasData s then some ⟨0, 0, 0, 0, [], []⟩ else
  if "follow_up_date" ∈ s.leads_df.cols ∧ "follow_up_completed" ∈ s.leads_df.cols ∧
      "priority" ∈ s.leads_df.cols then
    let rows := s.leads_df.rows
    let active := (rows.filter (fun r =>
      notna (getVal r.2 "follow_up_date") &&
      (getVal r.2 "follow_up_completed" == Val.vbool false))).length
    let overdue := (rows.filter (fun r => overdue_mask today r.2)).length
    let status_col := mapGet s.column_mapping "status" "status"
    let status_distribution :=
      if status_col ∈ s.leads_df.cols then
        valueCounts ((rows.map (fun r => getVal r.2 status_col)).filter (fun v => v ≠ .vnull))
      else []
    let priority_distribution :=
      valueCounts ((rows.map (fun r => getVal r.2 "priority")).filter (fun v => v ≠ .vnull))
    let qualified :=
      if status_col ∈ s.leads_df.cols then
        (["qualified", "closed", "won"].map (fun kw =>
          (rows.filter (fun r =>
            strContains (lowerStr (valToStr (getVal r.2 status_col))) kw.toList)).length)).sum
      else 0
    some ⟨rows.length, active, overdue, qualified, status_distribution, priority_distribution⟩
  else none

/-! ### Read-only operations as state transformers

The query methods never assign to `self.leads_df`, `self.column_mapping`
or `self.original_columns` — they work on `.copy()`s — so as state
transformers they return the state they received. -/

def get_filtered_leads_run (s : ManagerState) (a b c : Str) : DF × ManagerState :=
  (get_filtered_leads s a b c, s)

def get_unique_statuses_run (s : ManagerState) : List Str × ManagerState :=
  (get_unique_statuses s, s)

def get_upcoming_followups_run (s : ManagerState) (today : Int) (days_ahead : Nat) :
    Option DF × ManagerState :=
  (get_upcoming_followups s today days_ahead, s)

def get_overdue_followups_run (s : ManagerState) (today : Int) :
    Option DF × ManagerState :=
  (get_overdue_followups s today, s)

def get_daily_tasks_run (s : ManagerState) (date : Int) : Option DF × ManagerState :=
  (get_daily_tasks s date, s)

def get_analytics_run (s : ManagerState) (today : Int) :
    Option Analytics × ManagerState :=
  (get_analytics s today, s)

/-! ### Toolkit lemmas about rows, `setCell` and `locSet` -/

theorem map_id_of {α : Type} {f : α → α} {l : List α} (h : ∀ a ∈ l, f a = a) :
    l.map f = l := by
  induction l with
  | nil => rfl
  | cons a t ih =>
    rw [List.map_cons, h a (List.mem_cons_self a t), ih (fun b hb => h b (List.mem_cons_of_mem a hb))]

theorem findVal_none_iff {r : List (String × Val)} {c : String} :
    findVal r c = none ↔ ∀ p ∈ r, p.1 ≠ c := by
  induction r with
  | nil => simp [findVal]
  | cons p t ih =>
    by_cases h : p.1 = c
    · simp [findVal, h]
    · simp only [findVal, h, if_false, ih, List.mem_cons]
      constructor
      · intro hall q hq
        rcases hq with rfl | hq
        · exact h
        · exact hall q hq
      · intro hall q hq
        exact hall q (Or.inr hq)

theorem eq_none_of_isSome_false {α : Type} {o : Option α} (h : o.isSome = false) :
    o = none := by
  cases o with
  | none => rfl
  | some a => simp at h

theorem bool_eq_false {b : Bool} (h : ¬b = true) : b = false := by
  cases b with
  | false => rfl
  | true => exact absurd rfl h

theorem findVal_append (r s : List (String × Val)) (c : String) :
    findVal (r ++ s) c
      = match findVal r c with | some v => some v | none => findVal s c := by
  induction r with
  | nil => simp [findVal]
  | cons p t ih =>
    by_cases h : p.1 = c
    · simp [findVal, h]
    · simp [findVal, h, ih]

theorem findVal_map_set {c' c : String} (h : c' ≠ c) (r : List (String × Val)) (v : Val) :
    findVal (r.map (fun q => if q.1 = c then (c, v) else q)) c' = findVal r c' := by
  induction r with
  | nil => rfl
  | cons p t ih =>
    by_cases hp : p.1 = c
    · have h2 : p.1 ≠ c' := fun he => h ((hp.symm.trans he).symm)
      simp [List.map_cons, hp, findVal, Ne.symm h, h2, ih]
    · simp [List.map_cons, hp, findVal, ih]

theorem findVal_map_set_self {c : String} {r : List (String × Val)} (v : Val)
    (hs : (findVal r c).isSome) :
    findVal (r.map (fun q => if q.1 = c then (c, v) else q)) c = some v := by
  induction r with
  | nil => simp [findVal] at hs
  | cons p t ih =>
    by_cases hp : p.1 = c
    · simp [List.map_cons, hp, findVal]
    · rw [findVal, if_neg hp] at hs
      simp [List.map_cons, hp, findVal, ih hs]

theorem findVal_setCell_self (r : List (String × Val)) (c : String) (v : Val) :
    findVal (setCell r c v) c = some v := by
  rw [setCell]
  by_cases hs : (findVal r c).isSome
  · rw [if_pos hs]; exact findVal_map_set_self v hs
  · rw [if_neg hs]
    have hnone : findVal r c = none := eq_none_of_isSome_false (bool_eq_false hs)
    rw [findVal_append, hnone]
    simp [findVal]

theorem findVal_setCell_ne {c' c : String} (h : c' ≠ c) (r : List (String × Val)) (v : Val) :
    findVal (setCell r c v) c' = findVal r c' := by
  rw [setCell]
  by_cases hs : (findVal r c).isSome
  · rw [if_pos hs]; exact findVal_map_set h r v
  · rw [if_neg hs, findVal_append]
    cases hf : findVal r c' with
    | some w => simp
    | none => simp [findVal, Ne.symm h]

theorem getVal_setCell_same (r : List (String × Val)) (c : String) (v : Val) :
    getVal (setCell r c v) c = v := by
  rw [getVal, findVal_setCell_self]; rfl

theorem getVal_setCell_ne {c' c : String} (h : c' ≠ c) (r : List (String × Val)) (v : Val) :
    getVal (setCell r c v) c' = getVal r c' := by
  rw [getVal, findVal_setCell_ne h, getVal]

theorem entries_setCell_same {r : List (String × Val)} {c : String} {v : Val} :
    ∀ p ∈ setCell r c v, p.1 = c → p = (c, v) := by
  intro p hp hpc
  rw [setCell] at hp
  by_cases hs : (findVal r c).isSome
  · rw [if_pos hs] at hp
    obtain ⟨q, hq, hpq⟩ := List.mem_map.mp hp
    by_cases hqc : q.1 = c
    · rw [if_pos hqc] at hpq
      exact hpq.symm
    · rw [if_neg hqc] at hpq
      subst hpq
      exact absurd hpc hqc
  · rw [if_neg hs] at hp
    rcases List.mem_append.mp hp with hp | hp
    · have hall := findVal_none_iff.mp (eq_none_of_isSome_false (bool_eq_false hs))
      exact absurd hpc (hall p hp)
    · simpa using hp

theorem entries_setCell_preserve {r : List (String × Val)} {c' c : String} {v w : Val}
    (hne : c' ≠ c) (h : ∀ p ∈ r, p.1 = c' → p = (c', w)) :
    ∀ p ∈ setCell r c v, p.1 = c' → p = (c', w) := by
  intro p hp hpc
  rw [setCell] at hp
  by_cases hs : (findVal r c).isSome
  · rw [if_pos hs] at hp
    obtain ⟨q, hq, hpq⟩ := List.mem_map.mp hp
    by_cases hqc : q.1 = c
    · rw [if_pos hqc] at hpq
      rw [← hpq] at hpc
      exact absurd hpc.symm hne
    · rw [if_neg hqc] at hpq
      subst hpq
      exact h _ hq hpc
  · rw [if_neg hs] at hp
    rcases List.mem_append.mp hp with hp | hp
    · exact h p hp hpc
    · simp only [List.mem_singleton] at hp
      subst hp
      exact absurd hpc.symm hne

theorem setCell_eq_self {r : List (String × Val)} {c : String} {v : Val}
    (hs : (findVal r c).isSome) (h : ∀ p ∈ r, p.1 = c → p = (c, v)) :
    setCell r c v = r := by
  rw [setCell, if_pos hs]
  apply map_id_of
  intro p hp
  by_cases hpc : p.1 = c
  · rw [if_pos hpc]; exact (h p hp hpc).symm
  · rw [if_neg hpc]

theorem findVal_isSome_setCell_self (r : List (String × Val)) (c : String) (v : Val) :
    (findVal (setCell r c v) c).isSome := by
  rw [findVal_setCell_self]; rfl

theorem findVal_isSome_setCell_ne {c' c : String} (h : c' ≠ c)
    {r : List (String × Val)} {v : Val} (hs : (findVal r c').isSome) :
    (findVal (setCell r c v) c').isSome := by
  rw [findVal_setCell_ne h]; exact hs

/-! ### Lemmas about `locSet` -/

theorem locSet_cols {df : DF} {idx : Int} {c : String} {v : Val} :
    (locSet df idx c v).cols = if c ∈ df.cols then df.cols else df.cols ++ [c] := by
  rw [locSet]
  by_cases h : df.rows.any (fun r => r.1 = idx) <;> simp [h]

theorem locSet_cols_mem_self (df : DF) (idx : Int) (c : String) (v : Val) :
    c ∈ (locSet df idx c v).cols := by
  rw [locSet_cols]
  by_cases h : c ∈ df.cols <;> simp [h]

theorem locSet_cols_superset {c' : String} {df : DF} (idx : Int) (c : String) (v : Val)
    (h : c' ∈ df.cols) : c' ∈ (locSet df idx c v).cols := by
  rw [locSet_cols]
  by_cases hc : c ∈ df.cols <;> simp [hc, h]

theorem locSet_cols_eq_of_mem {c : String} {df : DF} (idx : Int) (v : Val)
    (h : c ∈ df.cols) : (locSet df idx c v).cols = df.cols := by
  rw [locSet_cols, if_pos h]

theorem locSet_rows_append {df : DF} {idx : Int} (c : String) (v : Val)
    (h : df.rows.any (fun r => r.1 = idx) = false) :
    (locSet df idx c v).rows = df.rows ++ [(idx, [(c, v)])] := by
  rw [locSet]
  simp [h]

theorem locSet_rows_map {df : DF} {idx : Int} (c : String) (v : Val)
    (h : df.rows.any (fun r => r.1 = idx) = true) :
    (locSet df idx c v).rows
      = df.rows.map (fun r => if r.1 = idx then (r.1, setCell r.2 c v) else r) := by
  rw [locSet]
  simp [h]

theorem locSet_any_self (df : DF) (idx : Int) (c : String) (v : Val) :
    ((locSet df idx c v).rows.any (fun r => r.1 = idx)) = true := by
  by_cases h : df.rows.any (fun r => r.1 = idx)
  · rw [locSet_rows_map c v h]
    rw [List.any_eq_true] at h ⊢
    obtain ⟨r, hr, hid⟩ := h
    refine ⟨if r.1 = idx then (r.1, setCell r.2 c v) else r, List.mem_map_of_mem _ hr, ?_⟩
    simp only [decide_eq_true_eq] at hid
    simp [hid]
  · rw [locSet_rows_append c v (bool_eq_false h)]
    simp

theorem locSet_rows_ne_nil (df : DF) (idx : Int) (c : String) (v : Val) :
    (locSet df idx c v).rows ≠ [] := by
  intro hcontra
  have := locSet_any_self df idx c v
  rw [hcontra] at this
  simp at this

theorem locSet_cols_ne_nil (df : DF) (idx : Int) (c : String) (v : Val) :
    (locSet df idx c v).cols ≠ [] := by
  rw [locSet_cols]
  by_cases h : c ∈ df.cols
  · rw [if_pos h]
    intro hcontra
    rw [hcontra] at h
    simp at h
  · rw [if_neg h]
    simp

theorem mem_locSet_cases {df : DF} {idx : Int} {c : String} {v : Val}
    {r : Int × List (String × Val)} (h : r ∈ (locSet df idx c v).rows) :
    (r.1 ≠ idx ∧ r ∈ df.rows) ∨
    (r.1 = idx ∧ ((∃ r₀ ∈ df.rows, r₀.1 = idx ∧ r.2 = setCell r₀.2 c v) ∨
      (df.rows.any (fun q => q.1 = idx) = false ∧ r.2 = [(c, v)]))) := by
  by_cases hany : df.rows.any (fun q => q.1 = idx)
  · rw [locSet_rows_map c v hany] at h
    obtain ⟨r₀, hr₀, hrq⟩ := List.mem_map.mp h
    by_cases hid : r₀.1 = idx
    · rw [if_pos hid] at hrq
      right
      refine ⟨by rw [← hrq]; exact hid, Or.inl ⟨r₀, hr₀, hid, by rw [← hrq]⟩⟩
    · rw [if_neg hid] at hrq
      left
      exact ⟨by rw [← hrq]; exact hid, hrq ▸ hr₀⟩
  · have hany' : df.rows.any (fun q => q.1 = idx) = false := bool_eq_false hany
    rw [locSet_rows_append c v hany'] at h
    rcases List.mem_append.mp h with h | h
    · left
      constructor
      · intro hcontra
        have := List.any_eq_false.mp hany' r h
        simp [hcontra] at this
      · exact h
    · simp only [List.mem_singleton] at h
      subst h
      right
      exact ⟨rfl, Or.inr ⟨hany', rfl⟩⟩

theorem locSet_getVal_self {df : DF} {idx : Int} {c : String} {v : Val}
    {r : Int × List (String × Val)} (h : r ∈ (locSet df idx c v).rows)
    (hid : r.1 = idx) : getVal r.2 c = v := by
  rcases mem_locSet_cases h with ⟨hne, -⟩ | ⟨-, hcase⟩
  · exact absurd hid hne
  · rcases hcase with ⟨r₀, -, -, heq⟩ | ⟨-, heq⟩
    · rw [heq, getVal_setCell_same]
    · rw [heq]
      simp [getVal, findVal]

/-- Rows of a double `locSet` at the same label: both written cells hold
their written values. -/
theorem locSet_pair_getVal {df : DF} {idx : Int} {c1 c2 : String} {v1 v2 : Val}
    (hcc : c2 ≠ c1) {r : Int × List (String × Val)}
    (h : r ∈ (locSet (locSet df idx c1 v1) idx c2 v2).rows) (hid : r.1 = idx) :
    getVal r.2 c1 = v1 ∧ getVal r.2 c2 = v2 := by
  refine ⟨?_, locSet_getVal_self h hid⟩
  rcases mem_locSet_cases h with ⟨hne, -⟩ | ⟨-, hcase⟩
  · exact absurd hid hne
  · rcases hcase with ⟨r₀, hr₀, hid0, heq⟩ | ⟨hany, -⟩
    · rw [heq, getVal_setCell_ne (Ne.symm hcc)]
      exact locSet_getVal_self hr₀ hid0
    · rw [locSet_any_self] at hany
      simp at hany

/-- Rows of a double `locSet` at the same label are fixed points of
rewriting either of the two cells again. -/
theorem locSet_pair_fix {df : DF} {idx : Int} {c1 c2 : String} {v1 v2 : Val}
    (hcc : c2 ≠ c1) {r : Int × List (String × Val)}
    (h : r ∈ (locSet (locSet df idx c1 v1) idx c2 v2).rows) (hid : r.1 = idx) :
    setCell r.2 c1 v1 = r.2 ∧ setCell r.2 c2 v2 = r.2 := by
  have hform : ∃ z, r.2 = setCell (setCell z c1 v1) c2 v2 := by
    rcases mem_locSet_cases h with ⟨hne, -⟩ | ⟨-, hcase⟩
    · exact absurd hid hne
    · rcases hcase with ⟨r₁, hr₁, hid1, heq⟩ | ⟨hany, -⟩
      · rcases mem_locSet_cases hr₁ with ⟨hne1, -⟩ | ⟨-, hcase1⟩
        · exact absurd hid1 hne1
        · rcases hcase1 with ⟨r₀, -, -, heq0⟩ | ⟨-, heq0⟩
          · exact ⟨r₀.2, by rw [heq, heq0]⟩
          · refine ⟨[], ?_⟩
            rw [heq, heq0]
            rfl
      · rw [locSet_any_self] at hany
        simp at hany
  obtain ⟨z, hz⟩ := hform
  have he1 : ∀ p ∈ r.2, p.1 = c1 → p = (c1, v1) := by
    rw [hz]
    exact entries_setCell_preserve (Ne.symm hcc) entries_setCell_same
  have he2 : ∀ p ∈ r.2, p.1 = c2 → p = (c2, v2) := by
    rw [hz]
    exact entries_setCell_same
  have hs1 : (findVal r.2 c1).isSome := by
    rw [hz]
    exact findVal_isSome_setCell_ne (Ne.symm hcc) (findVal_isSome_setCell_self _ _ _)
  have hs2 : (findVal r.2 c2).isSome := by
    rw [hz]
    exact findVal_isSome_setCell_self _ _ _
  exact ⟨setCell_eq_self hs1 he1, setCell_eq_self hs2 he2⟩

theorem DF.eq_of {a b : DF} (h1 : a.cols = b.cols) (h2 : a.rows = b.rows) : a = b := by
  cases a; cases b
  cases h1; cases h2
  rfl

/-- A `locSet` that rewrites cells already holding the written values is
the identity. -/
theorem locSet_eq_self {df : DF} {idx : Int} {c : String} {v : Val}
    (hc : c ∈ df.cols) (hany : df.rows.any (fun q => q.1 = idx) = true)
    (hfix : ∀ r ∈ df.rows, r.1 = idx → setCell r.2 c v = r.2) :
    locSet df idx c v = df := by
  refine DF.eq_of (locSet_cols_eq_of_mem idx v hc) ?_
  rw [locSet_rows_map c v hany]
  apply map_id_of
  intro r hr
  by_cases hid : r.1 = idx
  · rw [if_pos hid, hfix r hr hid]
  · rw [if_neg hid]

/-- A double `locSet` is idempotent (same label, two distinct columns). -/
theorem locSet_pair_idem {df : DF} {idx : Int} {c1 c2 : String} {v1 v2 : Val}
    (hcc : c2 ≠ c1) :
    locSet (locSet (locSet (locSet df idx c1 v1) idx c2 v2) idx c1 v1) idx c2 v2
      = locSet (locSet df idx c1 v1) idx c2 v2 := by
  set D := locSet (locSet df idx c1 v1) idx c2 v2 with hD
  have hc1 : c1 ∈ D.cols :=
    locSet_cols_superset idx c2 v2 (locSet_cols_mem_self _ idx c1 v1)
  have hc2 : c2 ∈ D.cols := locSet_cols_mem_self _ idx c2 v2
  have hany : D.rows.any (fun q => q.1 = idx) = true := locSet_any_self _ idx c2 v2
  have hfix : ∀ r ∈ D.rows, r.1 = idx →
      setCell r.2 c1 v1 = r.2 ∧ setCell r.2 c2 v2 = r.2 := by
    intro r hr hid
    exact locSet_pair_fix hcc hr hid
  have hinner : locSet D idx c1 v1 = D :=
    locSet_eq_self hc1 hany (fun r hr hid => (hfix r hr hid).1)
  rw [hinner]
  exact locSet_eq_self hc2 hany (fun r hr hid => (hfix r hr hid).2)

theorem isEmpty_false_of_ne_nil {α : Type} {l : List α} (h : l ≠ []) :
    l.isEmpty = false := by
  cases l with
  | nil => exact absurd rfl h
  | cons a t => rfl

theorem hasData_mk_locSet (s : ManagerState) (df : DF) (idx : Int) (c : String) (v : Val) :
    hasData { s with leads_df := locSet df idx c v } = true := by
  rw [hasData]
  rw [isEmpty_false_of_ne_nil (locSet_rows_ne_nil df idx c v),
      isEmpty_false_of_ne_nil (locSet_cols_ne_nil df idx c v)]
  rfl

theorem complete_followup_eq {s : ManagerState} (idx : Int) (todayS : Str)
    (h : hasData s = true) :
    complete_followup s idx todayS
      = { s with leads_df :=
            (locSet (locSet s.leads_df idx "follow_up_completed" (.vbool true))
              idx "last_contact" (.vstr todayS)) } := by
  rw [complete_followup, h]
  rfl

theorem schedule_followup_eq {s : ManagerState} (idx d : Int)
    (h : hasData s = true) :
    schedule_followup s idx d
      = { s with leads_df :=
            (locSet (locSet s.leads_df idx "follow_up_date" (.vdate d))
              idx "follow_up_completed" (.vbool false)) } := by
  rw [schedule_followup, h]
  rfl

/-! ### Claim C7 -/

/-- C7: for every record id present in the store (the store being
non-empty) and every date `d`, after `schedule_followup(id, d)` every row
labelled `id` has `follow_up_date = d` and `follow_up_completed = false`,
even if it was previously marked completed. -/
theorem c7_schedule_followup_reopens (s : ManagerState) (idx d : Int)
    (hd : hasData s = true) :
    ∀ r ∈ (schedule_followup s idx d).leads_df.rows, r.1 = idx →
      getVal r.2 "follow_up_date" = .vdate d ∧
      getVal r.2 "follow_up_completed" = .vbool false := by
  intro r hr hid
  rw [schedule_followup_eq idx d hd] at hr
  exact locSet_pair_getVal (by decide) hr hid

def c7state : ManagerState :=
  ⟨⟨["status", "priority", "follow_up_date", "last_contact", "follow_up_completed"],
    [(0, [("status", .vstr "new".toList), ("follow_up_date", .vdate 1440),
          ("follow_up_completed", .vbool true)])]⟩, [], []⟩

theorem c7_schedule_followup_reopens_witness :
    hasData c7state = true ∧
    (∀ r ∈ (schedule_followup c7state 0 2880).leads_df.rows, r.1 = 0 →
      getVal r.2 "follow_up_date" = .vdate 2880 ∧
      getVal r.2 "follow_up_completed" = .vbool false) :=
  ⟨by decide, c7_schedule_followup_reopens c7state 0 2880 (by decide)⟩

/-! ### View-membership helpers -/

theorem mem_kept_sorted_iff {α : Type} {le : α → α → Bool} {l : List α} {p : α → Bool}
    {r : α} :
    (r ∈ if (l.filter p).isEmpty then l.filter p else insSort le (l.filter p))
      ↔ (r ∈ l ∧ p r = true) := by
  by_cases hk : (l.filter p).isEmpty <;>
    simp [hk, mem_insSort, List.mem_filter]

theorem get_overdue_eq {s : ManagerState} {today : Int} (hd : hasData s = true)
    (hc : "follow_up_date" ∈ s.leads_df.cols ∧ "follow_up_completed" ∈ s.leads_df.cols) :
    get_overdue_followups s today = some ⟨s.leads_df.cols,
      if (s.leads_df.rows.filter (fun r => overdue_mask today r.2)).isEmpty
      then s.leads_df.rows.filter (fun r => overdue_mask today r.2)
      else insSort rowDateLe (s.leads_df.rows.filter (fun r => overdue_mask today r.2))⟩ := by
  have h1 : (!hasData s) = false := by rw [hd]; rfl
  rw [get_overdue_followups, h1]
  rw [if_neg (by simp), if_pos hc]

theorem get_upcoming_eq {s : ManagerState} {today : Int} {N : Nat} (hd : hasData s = true)
    (hc : "follow_up_date" ∈ s.leads_df.cols ∧ "follow_up_completed" ∈ s.leads_df.cols) :
    get_upcoming_followups s today N = some ⟨s.leads_df.cols,
      if (s.leads_df.rows.filter (fun r => upcoming_mask today N r.2)).isEmpty
      then s.leads_df.rows.filter (fun r => upcoming_mask today N r.2)
      else insSort rowDateLe (s.leads_df.rows.filter (fun r => upcoming_mask today N r.2))⟩ := by
  have h1 : (!hasData s) = false := by rw [hd]; rfl
  rw [get_upcoming_followups, h1]
  rw [if_neg (by simp), if_pos hc]

theorem overdue_mask_completed {today : Int} {r2 : List (String × Val)}
    (h : overdue_mask today r2 = true) :
    getVal r2 "follow_up_completed" = .vbool false := by
  rw [overdue_mask] at h
  simp only [Bool.and_eq_true, beq_iff_eq] at h
  exact h.1.2

theorem daily_mask_completed {target : Int} {r2 : List (String × Val)}
    (h : daily_mask target r2 = true) :
    getVal r2 "follow_up_completed" = .vbool false := by
  rw [daily_mask] at h
  simp only [Bool.and_eq_true, beq_iff_eq] at h
  exact h.1.2

/-- Any row of a `get_daily_tasks` result shares its label with a stored
row satisfying the day mask. -/
theorem daily_rows_labels {s : ManagerState} {date : Int} {ddf : DF}
    (h : get_daily_tasks s date = some ddf) :
    ∀ r ∈ ddf.rows, ∃ k ∈ s.leads_df.rows, r.1 = k.1 ∧
      daily_mask (normalizeTS date) k.2 = true := by
  intro r hr
  by_cases hd : hasData s
  · by_cases hc : "follow_up_date" ∈ s.leads_df.cols ∧ "follow_up_completed" ∈ s.leads_df.cols
    · have h1 : (!hasData s) = false := by rw [hd]; rfl
      rw [get_daily_tasks, h1, if_neg (by simp), if_pos hc] at h
      by_cases hk : (s.leads_df.rows.filter
          (fun r => daily_mask (normalizeTS date) r.2)).isEmpty
      · rw [if_pos hk] at h
        have hdf := Option.some.inj h
        rw [← hdf] at hr
        obtain ⟨hmem, hmask⟩ := List.mem_filter.mp hr
        exact ⟨r, hmem, rfl, hmask⟩
      · rw [if_neg hk] at h
        by_cases hp : "priority" ∈ s.leads_df.cols
        · rw [if_pos hp] at h
          have hdf := Option.some.inj h
          rw [← hdf] at hr
          obtain ⟨q, hq, hrq⟩ := List.mem_map.mp hr
          rw [mem_insSort] at hq
          obtain ⟨k, hk2, hqk⟩ := List.mem_map.mp hq
          obtain ⟨hkmem, hkmask⟩ := List.mem_filter.mp hk2
          refine ⟨k, hkmem, ?_, hkmask⟩
          rw [← hrq, ← hqk]
        · rw [if_neg hp] at h
          cases h
    · have h1 : (!hasData s) = false := by rw [hd]; rfl
      rw [get_daily_tasks, h1, if_neg (by simp), if_neg hc] at h
      cases h
  · have h1 : (!hasData s) = true := by
      rw [bool_eq_false hd]; rfl
    rw [get_daily_tasks, if_pos h1] at h
    have hdf := Option.some.inj h
    rw [← hdf] at hr
    simp [emptyDF] at hr

/-! ### Claim C6 -/

/-- C6: `complete_followup` on a stored id removes the record from the
overdue view and from every daily view, marks it completed with
`last_contact = today`, and is idempotent within a session. -/
theorem c6_complete_followup (s : ManagerState) (idx : Int) (todayS : Str) (today : Int)
    (hd : hasData s = true)
    (hcols : "follow_up_date" ∈ s.leads_df.cols ∧ "follow_up_completed" ∈ s.leads_df.cols) :
    (∃ odf, get_overdue_followups (complete_followup s idx todayS) today = some odf ∧
      ∀ r ∈ odf.rows, r.1 ≠ idx) ∧
    (∀ d ddf, get_daily_tasks (complete_followup s idx todayS) d = some ddf →
      ∀ r ∈ ddf.rows, r.1 ≠ idx) ∧
    (complete_followup (complete_followup s idx todayS) idx todayS
      = complete_followup s idx todayS) ∧
    (∀ r ∈ (complete_followup s idx todayS).leads_df.rows, r.1 = idx →
      getVal r.2 "follow_up_completed" = .vbool true ∧
      getVal r.2 "last_contact" = .vstr todayS) := by
  have hceq := complete_followup_eq (s := s) idx todayS hd
  set s' := complete_followup s idx todayS with hs'
  have hd' : hasData s' = true := by
    rw [hceq]
    exact hasData_mk_locSet _ _ _ _ _
  have hcols' : "follow_up_date" ∈ s'.leads_df.cols ∧
      "follow_up_completed" ∈ s'.leads_df.cols := by
    rw [hceq]
    exact ⟨locSet_cols_superset _ _ _ (locSet_cols_superset _ _ _ hcols.1),
      locSet_cols_superset _ _ _ (locSet_cols_mem_self _ _ _ _)⟩
  have hcompleted : ∀ r ∈ s'.leads_df.rows, r.1 = idx →
      getVal r.2 "follow_up_completed" = .vbool true ∧
      getVal r.2 "last_contact" = .vstr todayS := by
    intro r hr hid
    rw [hceq] at hr
    exact locSet_pair_getVal (by decide) hr hid
  refine ⟨?_, ?_, ?_, hcompleted⟩
  · refine ⟨_, get_overdue_eq hd' hcols', ?_⟩
    intro r hr hid
    rw [mem_kept_sorted_iff] at hr
    have := overdue_mask_completed hr.2
    have h2 := (hcompleted r hr.1 hid).1
    rw [this] at h2
    cases h2
  · intro d ddf hddf r hr hid
    obtain ⟨k, hk, hrk, hkmask⟩ := daily_rows_labels hddf r hr
    have := daily_mask_completed hkmask
    have h2 := (hcompleted k hk (by rw [← hrk]; exact hid)).1
    rw [this] at h2
    cases h2
  · have habsorb : (locSet (locSet
        (locSet (locSet s.leads_df idx "follow_up_completed" (.vbool true))
          idx "last_contact" (.vstr todayS)) idx "follow_up_completed" (.vbool true))
        idx "last_contact" (.vstr todayS))
      = (locSet (locSet s.leads_df idx "follow_up_completed" (.vbool true))
          idx "last_contact" (.vstr todayS)) := locSet_pair_idem (by decide)
    rw [complete_followup_eq idx todayS hd', hceq]
    simp [habsorb]

def c6state : ManagerState :=
  ⟨⟨["status", "priority", "follow_up_date", "last_contact", "follow_up_completed"],
    [(0, [("status", .vstr "new".toList), ("follow_up_date", .vdate (-1440)),
          ("follow_up_completed", .vbool false)])]⟩, [], []⟩

theorem c6_complete_followup_witness :
    (hasData c6state = true ∧
     "follow_up_date" ∈ c6state.leads_df.cols ∧
     "follow_up_completed" ∈ c6state.leads_df.cols) ∧
    ((∃ odf, get_overdue_followups (complete_followup c6state 0 "2026-10-12".toList) 0
        = some odf ∧ ∀ r ∈ odf.rows, r.1 ≠ 0) ∧
     (∀ d ddf, get_daily_tasks (complete_followup c6state 0 "2026-10-12".toList) d
        = some ddf → ∀ r ∈ ddf.rows, r.1 ≠ 0) ∧
     (complete_followup (complete_followup c6state 0 "2026-10-12".toList) 0
        "2026-10-12".toList = complete_followup c6state 0 "2026-10-12".toList) ∧
     (∀ r ∈ (complete_followup c6state 0 "2026-10-12".toList).leads_df.rows, r.1 = 0 →
        getVal r.2 "follow_up_completed" = .vbool true ∧
        getVal r.2 "last_contact" = .vstr "2026-10-12".toList)) :=
  ⟨⟨by decide, by decide, by decide⟩,
    c6_complete_followup c6state 0 "2026-10-12".toList 0 (by decide) ⟨by decide, by decide⟩⟩

/-! ### Claim C2 -/

theorem not_label_of_any_false {rows : List (Int × List (String × Val))} {idx : Int}
    (h : rows.any (fun q => q.1 = idx) = false) : ∀ r ∈ rows, ¬r.1 = idx := by
  intro r hr
  have := List.any_eq_false.mp h r hr
  simpa using this

/-- Two `.loc` writes on a label absent from the frame append exactly one
new row holding the two written cells. -/
theorem locSet_append_pair {df : DF} {idx : Int} {c1 c2 : String} {v1 v2 : Val}
    (hmiss : df.rows.any (fun q => q.1 = idx) = false) (hcc : c1 ≠ c2) :
    (locSet (locSet df idx c1 v1) idx c2 v2).rows
      = df.rows ++ [(idx, [(c1, v1), (c2, v2)])] := by
  have h1 : (locSet df idx c1 v1).rows = df.rows ++ [(idx, [(c1, v1)])] :=
    locSet_rows_append c1 v1 hmiss
  have hany2 : (locSet df idx c1 v1).rows.any (fun q => q.1 = idx) = true :=
    locSet_any_self df idx c1 v1
  rw [locSet_rows_map c2 v2 hany2, h1, List.map_append]
  congr 1
  · apply map_id_of
    intro r hr
    rw [if_neg (not_label_of_any_false hmiss r hr)]
  · have hf : findVal [(c1, v1)] c2 = none := by
      simp [findVal, hcc]
    simp [setCell, hf, findVal, hcc]

theorem update_lead_status_eq {s : ManagerState} (idx : Int) (v tS : Str)
    (hd : hasData s = true)
    (hsc : mapGet s.column_mapping "status" "status" ∈ s.leads_df.cols) :
    update_lead_status s idx v tS = { s with leads_df :=
      (locSet (locSet s.leads_df idx (mapGet s.column_mapping "status" "status") (.vstr v))
        idx "last_contact" (.vstr tS)) } := by
  have h1 : (!hasData s) = false := by rw [hd]; rfl
  rw [update_lead_status, h1, if_neg (by simp)]
  simp [hsc]

theorem update_lead_priority_eq {s : ManagerState} (idx : Int) (v : Str)
    (hd : hasData s = true) :
    update_lead_priority s idx v
      = { s with leads_df := locSet s.leads_df idx "priority" (.vstr v) } := by
  have h1 : (!hasData s) = false := by rw [hd]; rfl
  rw [update_lead_priority, h1, if_neg (by simp)]

theorem add_note_none {s : ManagerState} {idx : Int} {note nowS : Str}
    (hd : hasData s = true) (hnote : strip note ≠ [])
    (hmiss : s.leads_df.rows.any (fun q => q.1 = idx) = false) :
    add_note s idx note nowS = none := by
  have h1 : (!hasData s || decide (strip note = [])) = false := by
    rw [hd]; simp [hnote]
  rw [add_note, h1, if_neg (by simp)]
  by_cases hnc : mapGet s.column_mapping "notes" "notes" ∈ s.leads_df.cols
  · have hfind : s.leads_df.rows.find? (fun r => r.1 = idx) = none := by
      rw [List.find?_eq_none]
      intro r hr
      simpa using not_label_of_any_false hmiss r hr
    simp [hnc, hfind]
  · have hfind : (setColAll s.leads_df "notes" (.vstr [])).rows.find?
        (fun r => r.1 = idx) = none := by
      rw [List.find?_eq_none]
      intro r hr
      rw [setColAll] at hr
      obtain ⟨r₀, hr₀, hrq⟩ := List.mem_map.mp hr
      have := not_label_of_any_false hmiss r₀ hr₀
      rw [← hrq]
      simpa using this
    simp [hnc, hfind]

def c2state : ManagerState :=
  ⟨⟨["status", "priority", "follow_up_date", "last_contact", "follow_up_completed"],
    [(0, [("status", .vstr "new".toList)])]⟩, [], []⟩

/-- C2 counterexample: mutating a missing id is NOT a no-op — the record
set grows (pandas `.loc` enlargement). -/
theorem c2_counterexample_enlargement :
    (update_lead_priority c2state 5 "High".toList).leads_df.rows.map Prod.fst = [0, 5] ∧
    c2state.leads_df.rows.map Prod.fst = [0] := by
  decide

/-- C2 amended: on a missing id (with data loaded), `update_lead_status`,
`update_lead_priority`, `schedule_followup` and `complete_followup` each
append one fresh record carrying exactly the written cells (existing rows
untouched), and `add_note` raises (`none`); no operation is a no-op. -/
theorem c2_amended_missing_id_behaviour (s : ManagerState) (idx : Int)
    (v tS nowS note : Str) (d : Int)
    (hd : hasData s = true)
    (hmiss : s.leads_df.rows.any (fun q => q.1 = idx) = false)
    (hsc : mapGet s.column_mapping "status" "status" ∈ s.leads_df.cols)
    (hsc2 : mapGet s.column_mapping "status" "status" ≠ "last_contact")
    (hnote : strip note ≠ []) :
    (update_lead_status s idx v tS).leads_df.rows
      = s.leads_df.rows ++ [(idx, [(mapGet s.column_mapping "status" "status", .vstr v),
          ("last_contact", .vstr tS)])] ∧
    (update_lead_priority s idx v).leads_df.rows
      = s.leads_df.rows ++ [(idx, [("priority", .vstr v)])] ∧
    (schedule_followup s idx d).leads_df.rows
      = s.leads_df.rows ++ [(idx, [("follow_up_date", .vdate d),
          ("follow_up_completed", .vbool false)])] ∧
    (complete_followup s idx tS).leads_df.rows
      = s.leads_df.rows ++ [(idx, [("follow_up_completed", .vbool true),
          ("last_contact", .vstr tS)])] ∧
    add_note s idx note nowS = none := by
  refine ⟨?_, ?_, ?_, ?_, add_note_none hd hnote hmiss⟩
  · rw [update_lead_status_eq idx v tS hd hsc]
    exact locSet_append_pair hmiss hsc2
  · rw [update_lead_priority_eq idx v hd]
    exact locSet_rows_append _ _ hmiss
  · rw [schedule_followup_eq idx d hd]
    exact locSet_append_pair hmiss (by decide)
  · rw [complete_followup_eq idx tS hd]
    exact locSet_append_pair hmiss (by decide)

theorem c2_amended_missing_id_behaviour_witness :
    (hasData c2state = true ∧
     c2state.leads_df.rows.any (fun q => q.1 = 5) = false ∧
     mapGet c2state.column_mapping "status" "status" ∈ c2state.leads_df.cols ∧
     mapGet c2state.column_mapping "status" "status" ≠ "last_contact" ∧
     strip "note".toList ≠ []) ∧
    ((update_lead_status c2state 5 "Qualified".toList "2026-10-12".toList).leads_df.rows
      = c2state.leads_df.rows ++ [(5, [(mapGet c2state.column_mapping "status" "status",
          .vstr "Qualified".toList), ("last_contact", .vstr "2026-10-12".toList)])] ∧
     (update_lead_priority c2state 5 "Qualified".toList).leads_df.rows
      = c2state.leads_df.rows ++ [(5, [("priority", .vstr "Qualified".toList)])] ∧
     (schedule_followup c2state 5 1440).leads_df.rows
      = c2state.leads_df.rows ++ [(5, [("follow_up_date", .vdate 1440),
          ("follow_up_completed", .vbool false)])] ∧
     (complete_followup c2state 5 "2026-10-12".toList).leads_df.rows
      = c2state.leads_df.rows ++ [(5, [("follow_up_completed", .vbool true),
          ("last_contact", .vstr "2026-10-12".toList)])] ∧
     add_note c2state 5 "note".toList "2026-10-12 10:00".toList = none) :=
  ⟨⟨by decide, by decide, by decide, by decide, by decide⟩,
    c2_amended_missing_id_behaviour c2state 5 "Qualified".toList "2026-10-12".toList
      "2026-10-12 10:00".toList "note".toList 1440
      (by decide) (by decide) (by decide) (by decide) (by decide)⟩

/-! ### Claim C3 -/

theorem overdue_mask_eval {r2 : List (String × Val)} {t today : Int}
    (hfud : getVal r2 "follow_up_date" = .vdate t)
    (hfuc : getVal r2 "follow_up_completed" = .vbool false) :
    overdue_mask today r2 = decide (t < today) := by
  rw [overdue_mask, hfud, hfuc]
  simp [notna, toDT]

theorem upcoming_mask_eval {r2 : List (String × Val)} {t today : Int} {N : Nat}
    (hfud : getVal r2 "follow_up_date" = .vdate t)
    (hfuc : getVal r2 "follow_up_completed" = .vbool false) :
    upcoming_mask today N r2
      = (decide (today ≤ t) && decide (t ≤ today + 1440 * (N : Int))) := by
  rw [upcoming_mask, hfud, hfuc]
  simp [notna, toDT]

theorem overdue_mask_date {today : Int} {r2 : List (String × Val)}
    (h : overdue_mask today r2 = true) :
    ∃ t, toDT (getVal r2 "follow_up_date") = some t ∧ t < today := by
  rw [overdue_mask] at h
  simp only [Bool.and_eq_true] at h
  obtain ⟨-, h3⟩ := h
  cases htd : toDT (getVal r2 "follow_up_date") with
  | none => rw [htd] at h3; simp at h3
  | some t =>
    rw [htd] at h3
    exact ⟨t, rfl, by simpa using h3⟩

theorem upcoming_mask_date {today : Int} {N : Nat} {r2 : List (String × Val)}
    (h : upcoming_mask today N r2 = true) :
    ∃ t, toDT (getVal r2 "follow_up_date") = some t ∧
      today ≤ t ∧ t ≤ today + 1440 * (N : Int) := by
  rw [upcoming_mask] at h
  simp only [Bool.and_eq_true] at h
  obtain ⟨-, h3⟩ := h
  cases htd : toDT (getVal r2 "follow_up_date") with
  | none => rw [htd] at h3; simp at h3
  | some t =>
    rw [htd] at h3
    simp only [Bool.and_eq_true, decide_eq_true_eq] at h3
    exact ⟨t, rfl, h3⟩

/-- C3 amended: for any store with the management columns, the overdue
view, the upcoming(N) view and `{follow_up_date > today + N days}`
(timestamp comparison, NOT calendar-day comparison) partition the
non-completed date-valued records, and overdue never overlaps upcoming. -/
theorem c3_amended_partition (s : ManagerState) (today : Int) (N : Nat)
    (hd : hasData s = true)
    (hcols : "follow_up_date" ∈ s.leads_df.cols ∧ "follow_up_completed" ∈ s.leads_df.cols) :
    ∃ odf udf, get_overdue_followups s today = some odf ∧
      get_upcoming_followups s today N = some udf ∧
      (∀ r ∈ s.leads_df.rows, ∀ t : Int, getVal r.2 "follow_up_date" = .vdate t →
        getVal r.2 "follow_up_completed" = .vbool false →
        ((r ∈ odf.rows ∧ r ∉ udf.rows ∧ ¬t > today + 1440 * (N : Int)) ∨
         (r ∉ odf.rows ∧ r ∈ udf.rows ∧ ¬t > today + 1440 * (N : Int)) ∨
         (r ∉ odf.rows ∧ r ∉ udf.rows ∧ t > today + 1440 * (N : Int)))) ∧
      (∀ r, ¬(r ∈ odf.rows ∧ r ∈ udf.rows)) := by
  refine ⟨_, _, get_overdue_eq hd hcols, get_upcoming_eq hd hcols, ?_, ?_⟩
  · intro r hr t hfud hfuc
    have hmov : r ∈ (if (s.leads_df.rows.filter (fun r => overdue_mask today r.2)).isEmpty
        then s.leads_df.rows.filter (fun r => overdue_mask today r.2)
        else insSort rowDateLe (s.leads_df.rows.filter (fun r => overdue_mask today r.2)))
        ↔ t < today := by
      rw [mem_kept_sorted_iff]
      simp [hr, overdue_mask_eval hfud hfuc]
    have hmup : r ∈ (if (s.leads_df.rows.filter (fun r => upcoming_mask today N r.2)).isEmpty
        then s.leads_df.rows.filter (fun r => upcoming_mask today N r.2)
        else insSort rowDateLe (s.leads_df.rows.filter (fun r => upcoming_mask today N r.2)))
        ↔ (today ≤ t ∧ t ≤ today + 1440 * (N : Int)) := by
      rw [mem_kept_sorted_iff]
      simp [hr, upcoming_mask_eval hfud hfuc]
    by_cases h1 : t < today
    · refine Or.inl ⟨hmov.mpr h1, ?_, by omega⟩
      intro hu
      have := hmup.mp hu
      omega
    · by_cases h2 : t ≤ today + 1440 * (N : Int)
      · refine Or.inr (Or.inl ⟨?_, hmup.mpr ⟨by omega, h2⟩, by omega⟩)
        intro ho
        have := hmov.mp ho
        omega
      · refine Or.inr (Or.inr ⟨?_, ?_, by omega⟩)
        · intro ho
          have := hmov.mp ho
          omega
        · intro hu
          have := hmup.mp hu
          omega
  · rintro r ⟨h1, h2⟩
    rw [mem_kept_sorted_iff] at h1 h2
    obtain ⟨t, htd, hlt⟩ := overdue_mask_date h1.2
    obtain ⟨t', htd', hge, -⟩ := upcoming_mask_date h2.2
    rw [htd] at htd'
    have : t = t' := by injection htd'
    omega

def c3state : ManagerState :=
  ⟨⟨["priority", "follow_up_date", "last_contact", "follow_up_completed"],
    [(0, [("follow_up_date", .vdate 840), ("follow_up_completed", .vbool false)])]⟩,
   [], []⟩

theorem c3_amended_partition_witness :
    (hasData c3state = true ∧
     "follow_up_date" ∈ c3state.leads_df.cols ∧
     "follow_up_completed" ∈ c3state.leads_df.cols) ∧
    (∃ odf udf, get_overdue_followups c3state 0 = some odf ∧
      get_upcoming_followups c3state 0 0 = some udf ∧
      (∀ r ∈ c3state.leads_df.rows, ∀ t : Int, getVal r.2 "follow_up_date" = .vdate t →
        getVal r.2 "follow_up_completed" = .vbool false →
        ((r ∈ odf.rows ∧ r ∉ udf.rows ∧ ¬t > 0 + 1440 * ((0 : Nat) : Int)) ∨
         (r ∉ odf.rows ∧ r ∈ udf.rows ∧ ¬t > 0 + 1440 * ((0 : Nat) : Int)) ∨
         (r ∉ odf.rows ∧ r ∉ udf.rows ∧ t > 0 + 1440 * ((0 : Nat) : Int)))) ∧
      (∀ r, ¬(r ∈ odf.rows ∧ r ∈ udf.rows))) :=
  ⟨⟨by decide, by decide, by decide⟩,
    c3_amended_partition c3state 0 0 (by decide) ⟨by decide, by decide⟩⟩

/-- C3 counterexample: with `today` = minute 0 and N = 0, the eligible
record due at minute 840 (2 p.m. of the current day) is in none of the
three claimed sets: the overdue and upcoming views are empty, yet its
calendar day is not more than N days after today. -/
theorem c3_counterexample_time_of_day :
    (∃ r ∈ c3state.leads_df.rows, getVal r.2 "follow_up_date" = .vdate 840 ∧
      getVal r.2 "follow_up_completed" = .vbool false) ∧
    get_overdue_followups c3state 0
      = some ⟨["priority", "follow_up_date", "last_contact", "follow_up_completed"], []⟩ ∧
    get_upcoming_followups c3state 0 0
      = some ⟨["priority", "follow_up_date", "last_contact", "follow_up_completed"], []⟩ ∧
    ¬((840 : Int) / 1440 > 0 / 1440 + 0) := by
  decide

/-! ### Claim C4 -/

/-- C4: the Value Splitter is idempotent — re-splitting the `", "`-joined
result of a split yields the same ordered deduplicated list, for every
input string (mixed separators included); empty input yields the empty
list. -/
theorem c4_value_splitter_idempotent :
    (∀ x : Str, splitValues (joinComma (splitValues x)) = splitValues x) ∧
    splitValues [] = [] :=
  ⟨splitValues_idem, splitValues_nil⟩

/-! ### Claim C5 -/

def c5state : ManagerState :=
  ⟨⟨["email", "status", "priority", "follow_up_date", "last_contact", "follow_up_completed"],
    [(0, [("email", .vstr "a@x.com; b@y.com,a@x.com".toList)]),
     (1, [("email", .vnull)])]⟩, [], []⟩

def c5state_nocol : ManagerState :=
  ⟨⟨["name", "priority", "follow_up_date", "last_contact", "follow_up_completed"],
    [(0, [("name", .vstr "x".toList)])]⟩, [], []⟩

/-- C5: `get_multiple_emails` on the cell `"a@x.com; b@y.com,a@x.com"`
returns exactly `["a@x.com", "b@y.com"]` (cascade split, `@`/`.`
plausibility filter, first-seen dedup); a null email value and an absent
email column both yield the empty list. -/
theorem c5_multi_email_extraction :
    get_multiple_emails c5state 0 = some ["a@x.com".toList, "b@y.com".toList] ∧
    get_multiple_emails c5state 1 = some [] ∧
    get_multiple_emails c5state_nocol 0 = some [] := by
  decide

/-! ### Claim C8 -/

theorem get_analytics_eq {s : ManagerState} {today : Int} (hd : hasData s = true)
    (hc : "follow_up_date" ∈ s.leads_df.cols ∧ "follow_up_completed" ∈ s.leads_df.cols ∧
      "priority" ∈ s.leads_df.cols) :
    get_analytics s today = some
      ⟨s.leads_df.rows.length,
       (s.leads_df.rows.filter (fun r =>
          notna (getVal r.2 "follow_up_date") &&
          (getVal r.2 "follow_up_completed" == Val.vbool false))).length,
       (s.leads_df.rows.filter (fun r => overdue_mask today r.2)).length,
       (if mapGet s.column_mapping "status" "status" ∈ s.leads_df.cols then
          (["qualified", "closed", "won"].map (fun kw =>
            (s.leads_df.rows.filter (fun r =>
              strContains (lowerStr (valToStr (getVal r.2
                (mapGet s.column_mapping "status" "status")))) kw.toList)).length)).sum
        else 0),
       (if mapGet s.column_mapping "status" "status" ∈ s.leads_df.cols then
          valueCounts ((s.leads_df.rows.map (fun r =>
            getVal r.2 (mapGet s.column_mapping "status" "status"))).filter
              (fun v => v ≠ .vnull))
        else []),
       valueCounts ((s.leads_df.rows.map (fun r => getVal r.2 "priority")).filter
         (fun v => v ≠ .vnull))⟩ := by
  have h1 : (!hasData s) = false := by rw [hd]; rfl
  rw [get_analytics, h1, if_neg (by simp), if_pos hc]

/-- The per-keyword record count that `get_analytics` sums. -/
def countKw (s : ManagerState) (kw : String) : Nat :=
  (s.leads_df.rows.filter (fun r =>
    strContains (lowerStr (valToStr (getVal r.2
      (mapGet s.column_mapping "status" "status")))) kw.toList)).length

def c8state : ManagerState :=
  ⟨⟨["status", "priority", "follow_up_date", "last_contact", "follow_up_completed"],
    [(0, [("status", .vstr "Closed-Won".toList)])]⟩, [], []⟩

/-- C8: `qualified_leads` is the SUM over the keywords "qualified",
"closed", "won" of the per-keyword substring-match counts, so a single
record whose status contains several keywords is counted once per
keyword — as witnessed by a one-record store with status "Closed-Won"
reporting 2 qualified leads. -/
theorem c8_qualified_double_counting (s : ManagerState) (today : Int)
    (hd : hasData s = true)
    (hc : "follow_up_date" ∈ s.leads_df.cols ∧ "follow_up_completed" ∈ s.leads_df.cols ∧
      "priority" ∈ s.leads_df.cols)
    (hsc : mapGet s.column_mapping "status" "status" ∈ s.leads_df.cols) :
    (∃ a, get_analytics s today = some a ∧
      a.qualified_leads = countKw s "qualified" + countKw s "closed" + countKw s "won") ∧
    (∃ a, get_analytics c8state 0 = some a ∧ a.total_leads = 1 ∧ a.qualified_leads = 2) := by
  constructor
  · refine ⟨_, get_analytics_eq hd hc, ?_⟩
    simp only [if_pos hsc, countKw, List.map_cons, List.map_nil, List.sum_cons,
      List.sum_nil]
    omega
  · refine ⟨⟨1, 0, 0, 2, [(.vstr "Closed-Won".toList, 1)], []⟩, by decide, rfl, rfl⟩

theorem c8_qualified_double_counting_witness :
    (hasData c8state = true ∧
     ("follow_up_date" ∈ c8state.leads_df.cols ∧
      "follow_up_completed" ∈ c8state.leads_df.cols ∧
      "priority" ∈ c8state.leads_df.cols) ∧
     mapGet c8state.column_mapping "status" "status" ∈ c8state.leads_df.cols) ∧
    ((∃ a, get_analytics c8state 0 = some a ∧
      a.qualified_leads
        = countKw c8state "qualified" + countKw c8state "closed" + countKw c8state "won") ∧
     (∃ a, get_analytics c8state 0 = some a ∧ a.total_leads = 1 ∧ a.qualified_leads = 2)) :=
  ⟨⟨by decide, ⟨by decide, by decide, by decide⟩, by decide⟩,
    c8_qualified_double_counting c8state 0 (by decide)
      ⟨by decide, by decide, by decide⟩ (by decide)⟩

/-! ### Claim C9 -/

theorem setColAll_cols_superset {c' : String} {df : DF} (c : String) (v : Val)
    (h : c' ∈ df.cols) : c' ∈ (setColAll df c v).cols := by
  rw [setColAll]
  by_cases hc : c ∈ df.cols <;> simp [hc, h]

theorem setColAll_cols_mem_self (df : DF) (c : String) (v : Val) :
    c ∈ (setColAll df c v).cols := by
  rw [setColAll]
  by_cases hc : c ∈ df.cols <;> simp [hc]

theorem setColAll_getVal_self (df : DF) (c : String) (v : Val) :
    ∀ r ∈ (setColAll df c v).rows, getVal r.2 c = v := by
  intro r hr
  rw [setColAll] at hr
  obtain ⟨r₀, h0, hq⟩ := List.mem_map.mp hr
  rw [← hq]
  exact getVal_setCell_same _ _ _

theorem setColAll_allRows_ne {c' c : String} (hne : c' ≠ c) {df : DF} {v' : Val}
    (h : ∀ r ∈ df.rows, getVal r.2 c' = v') (v : Val) :
    ∀ r ∈ (setColAll df c v).rows, getVal r.2 c' = v' := by
  intro r hr
  rw [setColAll] at hr
  obtain ⟨r₀, h0, hq⟩ := List.mem_map.mp hr
  rw [← hq]
  rw [getVal_setCell_ne hne]
  exact h r₀ h0

/-- `_standardize_columns` preserves the presence and the per-row value of
any column that already exists. -/
theorem standardize_preserve {c : String} {v : Val} :
    ∀ {m : List (String × String)} {df : DF}, c ∈ df.cols →
      (∀ r ∈ df.rows, getVal r.2 c = v) →
      c ∈ (standardize_columns m df).cols ∧
        ∀ r ∈ (standardize_columns m df).rows, getVal r.2 c = v := by
  intro m
  induction m with
  | nil => exact fun hc hv => ⟨hc, hv⟩
  | cons p t ih =>
    intro df hc hv
    rw [standardize_columns, List.foldl_cons]
    by_cases hcond : p.2 ∈ df.cols ∧ p.1 ∉ df.cols
    · have hstep : (if p.2 ∈ df.cols ∧ p.1 ∉ df.cols then
          (⟨df.cols ++ [p.1], df.rows.map (fun r =>
            (r.1, setCell r.2 p.1 (getVal r.2 p.2)))⟩ : DF)
          else df)
          = ⟨df.cols ++ [p.1], df.rows.map (fun r =>
            (r.1, setCell r.2 p.1 (getVal r.2 p.2)))⟩ := if_pos hcond
      have hne : c ≠ p.1 := fun he => hcond.2 (he ▸ hc)
      have hc' : c ∈ (⟨df.cols ++ [p.1], df.rows.map (fun r =>
          (r.1, setCell r.2 p.1 (getVal r.2 p.2)))⟩ : DF).cols := by
        simp [hc]
      have hv' : ∀ r ∈ (⟨df.cols ++ [p.1], df.rows.map (fun r =>
          (r.1, setCell r.2 p.1 (getVal r.2 p.2)))⟩ : DF).rows, getVal r.2 c = v := by
        intro r hr
        obtain ⟨r₀, h0, hq⟩ := List.mem_map.mp hr
        rw [← hq]
        rw [getVal_setCell_ne hne]
        exact hv r₀ h0
      simp only [hstep]
      exact ih hc' hv'
    · have hstep : (if p.2 ∈ df.cols ∧ p.1 ∉ df.cols then
          (⟨df.cols ++ [p.1], df.rows.map (fun r =>
            (r.1, setCell r.2 p.1 (getVal r.2 p.2)))⟩ : DF)
          else df) = df := if_neg hcond
      simp only [hstep]
      exact ih hc hv

/-- Per-column presence through `_standardize_columns` (no value claim). -/
theorem standardize_cols_superset {c : String} :
    ∀ {m : List (String × String)} {df : DF}, c ∈ df.cols →
      c ∈ (standardize_columns m df).cols := by
  intro m
  induction m with
  | nil => exact fun hc => hc
  | cons p t ih =>
    intro df hc
    rw [standardize_columns, List.foldl_cons]
    by_cases hcond : p.2 ∈ df.cols ∧ p.1 ∉ df.cols
    · simp only [if_pos hcond]
      exact ih (by simp [hc])
    · simp only [if_neg hcond]
      exact ih hc

/-- Presence of a column in an optionally-injected management column. -/
theorem ite_addCol_superset {c' : String} {df : DF} (P : Prop) [Decidable P]
    (c : String) (v : Val) (h : c' ∈ df.cols) :
    c' ∈ (if P then df else addColConst df c v).cols := by
  by_cases hp : P
  · rw [if_pos hp]; exact h
  · rw [if_neg hp]; exact setColAll_cols_superset c v h

theorem ite_addCol_allRows {c' c : String} (hne : c' ≠ c) {df : DF} {v' : Val}
    (P : Prop) [Decidable P] (v : Val) (h : ∀ r ∈ df.rows, getVal r.2 c' = v') :
    ∀ r ∈ (if P then df else addColConst df c v).rows, getVal r.2 c' = v' := by
  by_cases hp : P
  · rw [if_pos hp]; exact h
  · rw [if_neg hp]; exact setColAll_allRows_ne hne h v

theorem clean_data_types_cols (df : DF) : (clean_data_types df).cols = df.cols := rfl

/-- One step of the management-column injection of `load_data`
(lines 27-37): add the column with its default when absent. -/
def injectCol (d : DF) (c : String) (v : Val) : DF :=
  if c ∈ d.cols then d else addColConst d c v

theorem load_data_leads_df (df : DF) (m : List (String × String)) :
    (load_data df m).leads_df
      = standardize_columns (m.filter (fun p => p.2 ≠ ""))
          (injectCol (injectCol (injectCol (injectCol (clean_data_types df)
            "priority" (.vstr "Medium".toList)) "follow_up_date" .vnull)
            "last_contact" .vnull) "follow_up_completed" (.vbool false)) := rfl

theorem injectCol_mem_self (d : DF) (c : String) (v : Val) :
    c ∈ (injectCol d c v).cols := by
  rw [injectCol]
  by_cases h : c ∈ d.cols
  · rw [if_pos h]; exact h
  · rw [if_neg h]; exact setColAll_cols_mem_self d c v

theorem injectCol_superset {c' : String} {d : DF} (c : String) (v : Val)
    (h : c' ∈ d.cols) : c' ∈ (injectCol d c v).cols := by
  rw [injectCol]
  by_cases hm : c ∈ d.cols
  · rw [if_pos hm]; exact h
  · rw [if_neg hm]; exact setColAll_cols_superset c v h

theorem injectCol_not_mem {c' c : String} (hne : c' ≠ c) {d : DF} (v : Val)
    (h : c' ∉ d.cols) : c' ∉ (injectCol d c v).cols := by
  rw [injectCol]
  by_cases hm : c ∈ d.cols
  · rw [if_pos hm]; exact h
  · rw [if_neg hm]
    simp only [addColConst, setColAll]
    rw [if_neg hm]
    intro hmem
    rcases List.mem_append.mp hmem with hmem | hmem
    · exact h hmem
    · simp only [List.mem_singleton] at hmem
      exact hne hmem

theorem injectCol_absent {c : String} {d : DF} (v : Val) (h : c ∉ d.cols) :
    c ∈ (injectCol d c v).cols ∧ ∀ r ∈ (injectCol d c v).rows, getVal r.2 c = v := by
  rw [injectCol, if_neg h]
  exact ⟨setColAll_cols_mem_self d c v, setColAll_getVal_self d c v⟩

theorem injectCol_preserve {c' c : String} (hne : c' ≠ c) {d : DF} {v' : Val}
    (v : Val) (hc : c' ∈ d.cols) (hall : ∀ r ∈ d.rows, getVal r.2 c' = v') :
    c' ∈ (injectCol d c v).cols ∧
      ∀ r ∈ (injectCol d c v).rows, getVal r.2 c' = v' := by
  rw [injectCol]
  by_cases hm : c ∈ d.cols
  · rw [if_pos hm]; exact ⟨hc, hall⟩
  · rw [if_neg hm]
    exact ⟨setColAll_cols_superset c v hc, setColAll_allRows_ne hne hall v⟩

theorem update_lead_priority_cols {c : String} (s : ManagerState) (idx : Int) (v : Str)
    (h : c ∈ s.leads_df.cols) : c ∈ (update_lead_priority s idx v).leads_df.cols := by
  by_cases hd : hasData s
  · rw [update_lead_priority_eq idx v hd]
    exact locSet_cols_superset _ _ _ h
  · rw [update_lead_priority, if_pos (by rw [bool_eq_false hd]; rfl)]
    exact h

theorem schedule_followup_cols {c : String} (s : ManagerState) (idx d : Int)
    (h : c ∈ s.leads_df.cols) : c ∈ (schedule_followup s idx d).leads_df.cols := by
  by_cases hd : hasData s
  · rw [schedule_followup_eq idx d hd]
    exact locSet_cols_superset _ _ _ (locSet_cols_superset _ _ _ h)
  · rw [schedule_followup, if_pos (by rw [bool_eq_false hd]; rfl)]
    exact h

theorem complete_followup_cols {c : String} (s : ManagerState) (idx : Int) (tS : Str)
    (h : c ∈ s.leads_df.cols) : c ∈ (complete_followup s idx tS).leads_df.cols := by
  by_cases hd : hasData s
  · rw [complete_followup_eq idx tS hd]
    exact locSet_cols_superset _ _ _ (locSet_cols_superset _ _ _ h)
  · rw [complete_followup, if_pos (by rw [bool_eq_false hd]; rfl)]
    exact h

theorem update_lead_status_cols {c : String} (s : ManagerState) (idx : Int) (v tS : Str)
    (h : c ∈ s.leads_df.cols) : c ∈ (update_lead_status s idx v tS).leads_df.cols := by
  by_cases hd : hasData s
  · by_cases hsc : mapGet s.column_mapping "status" "status" ∈ s.leads_df.cols
    · rw [update_lead_status_eq idx v tS hd hsc]
      exact locSet_cols_superset _ _ _ (locSet_cols_superset _ _ _ h)
    · have h1 : (!hasData s) = false := by rw [hd]; rfl
      rw [update_lead_status, h1, if_neg (by simp)]
      simp only [hsc, if_false]
      exact locSet_cols_superset _ _ _
        (locSet_cols_superset _ _ _ (setColAll_cols_superset _ _ h))
  · rw [update_lead_status, if_pos (by rw [bool_eq_false hd]; rfl)]
    exact h

theorem add_note_cols {c : String} (s : ManagerState) (idx : Int) (note nowS : Str)
    (h : c ∈ s.leads_df.cols) :
    ∀ s', add_note s idx note nowS = some s' → c ∈ s'.leads_df.cols := by
  intro s' hs'
  rw [add_note] at hs'
  by_cases hg : (!hasData s || decide (strip note = [])) = true
  · rw [if_pos hg] at hs'
    have := Option.some.inj hs'
    rw [← this]
    exact h
  · rw [if_neg hg] at hs'
    by_cases hnc : mapGet s.column_mapping "notes" "notes" ∈ s.leads_df.cols
    · simp only [hnc, if_true] at hs'
      cases hf : s.leads_df.rows.find? (fun r => r.1 = idx) with
      | none => rw [hf] at hs'; cases hs'
      | some row =>
        rw [hf] at hs'
        have := Option.some.inj hs'
        rw [← this]
        exact locSet_cols_superset _ _ _ h
    · simp only [hnc, if_false] at hs'
      cases hf : (setColAll s.leads_df "notes" (.vstr [])).rows.find?
          (fun r => r.1 = idx) with
      | none => rw [hf] at hs'; cases hs'
      | some row =>
        rw [hf] at hs'
        have := Option.some.inj hs'
        rw [← this]
        exact locSet_cols_superset _ _ _ (setColAll_cols_superset _ _ h)

/-- C9: after `load_data` the four management columns exist, absent ones
are injected with their documented defaults in every record, and every
mutation preserves the presence of any existing column (hence of the four
management columns). -/
theorem c9_management_columns (df : DF) (m : List (String × String))
    (s : ManagerState) (c : String) (idx : Int) (v tS nowS note : Str) (d : Int) :
    ("priority" ∈ (load_data df m).leads_df.cols ∧
     "follow_up_date" ∈ (load_data df m).leads_df.cols ∧
     "last_contact" ∈ (load_data df m).leads_df.cols ∧
     "follow_up_completed" ∈ (load_data df m).leads_df.cols) ∧
    ("priority" ∉ df.cols →
      ∀ r ∈ (load_data df m).leads_df.rows,
        getVal r.2 "priority" = .vstr "Medium".toList) ∧
    ("follow_up_date" ∉ df.cols →
      ∀ r ∈ (load_data df m).leads_df.rows, getVal r.2 "follow_up_date" = .vnull) ∧
    ("last_contact" ∉ df.cols →
      ∀ r ∈ (load_data df m).leads_df.rows, getVal r.2 "last_contact" = .vnull) ∧
    ("follow_up_completed" ∉ df.cols →
      ∀ r ∈ (load_data df m).leads_df.rows,
        getVal r.2 "follow_up_completed" = .vbool false) ∧
    (c ∈ s.leads_df.cols →
      c ∈ (update_lead_status s idx v tS).leads_df.cols ∧
      c ∈ (update_lead_priority s idx v).leads_df.cols ∧
      c ∈ (schedule_followup s idx d).leads_df.cols ∧
      c ∈ (complete_followup s idx tS).leads_df.cols ∧
      (∀ s', add_note s idx note nowS = some s' → c ∈ s'.leads_df.cols)) := by
  refine ⟨?_, ?_, ?_, ?_, ?_, ?_⟩
  · rw [load_data_leads_df]
    refine ⟨?_, ?_, ?_, ?_⟩ <;> apply standardize_cols_superset
    · exact injectCol_superset _ _ (injectCol_superset _ _ (injectCol_superset _ _
        (injectCol_mem_self _ _ _)))
    · exact injectCol_superset _ _ (injectCol_superset _ _ (injectCol_mem_self _ _ _))
    · exact injectCol_superset _ _ (injectCol_mem_self _ _ _)
    · exact injectCol_mem_self _ _ _
  · intro h
    rw [load_data_leads_df]
    have h0 : "priority" ∉ (clean_data_types df).cols := by
      rw [clean_data_types_cols]; exact h
    have s1 := injectCol_absent (c := "priority") (.vstr "Medium".toList) h0
    have s2 := injectCol_preserve (c := "follow_up_date") (by decide) .vnull s1.1 s1.2
    have s3 := injectCol_preserve (c := "last_contact") (by decide) .vnull s2.1 s2.2
    have s4 := injectCol_preserve (c := "follow_up_completed") (by decide)
      (.vbool false) s3.1 s3.2
    exact (standardize_preserve s4.1 s4.2).2
  · intro h
    rw [load_data_leads_df]
    have h0 : "follow_up_date" ∉ (clean_data_types df).cols := by
      rw [clean_data_types_cols]; exact h
    have h1 : "follow_up_date" ∉ (injectCol (clean_data_types df)
        "priority" (.vstr "Medium".toList)).cols := injectCol_not_mem (by decide) _ h0
    have s2 := injectCol_absent (c := "follow_up_date") .vnull h1
    have s3 := injectCol_preserve (c := "last_contact") (by decide) .vnull s2.1 s2.2
    have s4 := injectCol_preserve (c := "follow_up_completed") (by decide)
      (.vbool false) s3.1 s3.2
    exact (standardize_preserve s4.1 s4.2).2
  · intro h
    rw [load_data_leads_df]
    have h0 : "last_contact" ∉ (clean_data_types df).cols := by
      rw [clean_data_types_cols]; exact h
    have h1 : "last_contact" ∉ (injectCol (clean_data_types df)
        "priority" (.vstr "Medium".toList)).cols := injectCol_not_mem (by decide) _ h0
    have h2 : "last_contact" ∉ (injectCol (injectCol (clean_data_types df)
        "priority" (.vstr "Medium".toList)) "follow_up_date" .vnull).cols :=
      injectCol_not_mem (by decide) _ h1
    have s3 := injectCol_absent (c := "last_contact") .vnull h2
    have s4 := injectCol_preserve (c := "follow_up_completed") (by decide)
      (.vbool false) s3.1 s3.2
    exact (standardize_preserve s4.1 s4.2).2
  · intro h
    rw [load_data_leads_df]
    have h0 : "follow_up_completed" ∉ (clean_data_types df).cols := by
      rw [clean_data_types_cols]; exact h
    have h1 : "follow_up_completed" ∉ (injectCol (clean_data_types df)
        "priority" (.vstr "Medium".toList)).cols := injectCol_not_mem (by decide) _ h0
    have h2 : "follow_up_completed" ∉ (injectCol (injectCol (clean_data_types df)
        "priority" (.vstr "Medium".toList)) "follow_up_date" .vnull).cols :=
      injectCol_not_mem (by decide) _ h1
    have h3 : "follow_up_completed" ∉ (injectCol (injectCol (injectCol
        (clean_data_types df) "priority" (.vstr "Medium".toList))
        "follow_up_date" .vnull) "last_contact" .vnull).cols :=
      injectCol_not_mem (by decide) _ h2
    have s4 := injectCol_absent (c := "follow_up_completed") (.vbool false) h3
    exact (standardize_preserve s4.1 s4.2).2
  · intro h
    exact ⟨update_lead_status_cols s idx v tS h, update_lead_priority_cols s idx v h,
      schedule_followup_cols s idx d h, complete_followup_cols s idx tS h,
      add_note_cols s idx note nowS h⟩

def c9raw : DF := ⟨["name"], [(0, [("name", .vstr "Ada".toList)])]⟩

theorem c9_management_columns_witness :
    ("name" ∈ c9raw.cols) ∧
    (("priority" ∈ (load_data c9raw []).leads_df.cols ∧
      "follow_up_date" ∈ (load_data c9raw []).leads_df.cols ∧
      "last_contact" ∈ (load_data c9raw []).leads_df.cols ∧
      "follow_up_completed" ∈ (load_data c9raw []).leads_df.cols) ∧
     ("priority" ∉ c9raw.cols →
       ∀ r ∈ (load_data c9raw []).leads_df.rows,
         getVal r.2 "priority" = .vstr "Medium".toList) ∧
     ("follow_up_date" ∉ c9raw.cols →
       ∀ r ∈ (load_data c9raw []).leads_df.rows, getVal r.2 "follow_up_date" = .vnull) ∧
     ("last_contact" ∉ c9raw.cols →
       ∀ r ∈ (load_data c9raw []).leads_df.rows, getVal r.2 "last_contact" = .vnull) ∧
     ("follow_up_completed" ∉ c9raw.cols →
       ∀ r ∈ (load_data c9raw []).leads_df.rows,
         getVal r.2 "follow_up_completed" = .vbool false) ∧
     ("name" ∈ (load_data c9raw []).leads_df.cols →
       "name" ∈ (update_lead_status (load_data c9raw []) 0 "Won".toList
         "2026-10-12".toList).leads_df.cols ∧
       "name" ∈ (update_lead_priority (load_data c9raw []) 0 "High".toList).leads_df.cols ∧
       "name" ∈ (schedule_followup (load_data c9raw []) 0 1440).leads_df.cols ∧
       "name" ∈ (complete_followup (load_data c9raw []) 0
         "2026-10-12".toList).leads_df.cols ∧
       (∀ s', add_note (load_data c9raw []) 0 "hi".toList "2026-10-12 10:00".toList
          = some s' → "name" ∈ s'.leads_df.cols))) :=
  ⟨by decide,
    c9_management_columns c9raw [] (load_data c9raw []) "name" 0
      "Won".toList "2026-10-12".toList "2026-10-12 10:00".toList "hi".toList 1440⟩

/-! ### Claim C10 -/

/-- C10: the six read-only operations leave the manager state (leads
table, column mapping, original-columns list) unchanged, and the
temporary `priority_order` sort key of `get_daily_tasks` never leaks into
the returned frame. -/
theorem c10_readonly_ops_frame (s : ManagerState) (a b c : Str) (today d : Int)
    (N : Nat) (hpo : "priority_order" ∉ s.leads_df.cols) :
    (get_filtered_leads_run s a b c).2 = s ∧
    (get_unique_statuses_run s).2 = s ∧
    (get_upcoming_followups_run s today N).2 = s ∧
    (get_overdue_followups_run s today).2 = s ∧
    (get_daily_tasks_run s d).2 = s ∧
    (get_analytics_run s today).2 = s ∧
    (∀ ddf, get_daily_tasks s d = some ddf → "priority_order" ∉ ddf.cols) := by
  refine ⟨rfl, rfl, rfl, rfl, rfl, rfl, ?_⟩
  intro ddf h
  rw [get_daily_tasks] at h
  by_cases hd : hasData s
  · have h1 : (!hasData s) = false := by rw [hd]; rfl
    rw [h1, if_neg (by simp)] at h
    by_cases hc : "follow_up_date" ∈ s.leads_df.cols ∧
        "follow_up_completed" ∈ s.leads_df.cols
    · rw [if_pos hc] at h
      by_cases hk : (s.leads_df.rows.filter
          (fun r => daily_mask (normalizeTS d) r.2)).isEmpty
      · rw [if_pos hk] at h
        have hdf := Option.some.inj h
        rw [← hdf]
        exact hpo
      · rw [if_neg hk] at h
        by_cases hp : "priority" ∈ s.leads_df.cols
        · rw [if_pos hp] at h
          have hdf := Option.some.inj h
          rw [← hdf]
          intro hmem
          have := (List.mem_filter.mp hmem).2
          simp at this
        · rw [if_neg hp] at h
          cases h
    · rw [if_neg hc] at h
      cases h
  · rw [if_pos (by rw [bool_eq_false hd]; rfl)] at h
    have hdf := Option.some.inj h
    rw [← hdf]
    simp [emptyDF]

def c10state : ManagerState :=
  ⟨⟨["status", "priority", "follow_up_date", "last_contact", "follow_up_completed"],
    [(0, [("status", .vstr "new".toList), ("priority", .vstr "Low".toList),
          ("follow_up_date", .vdate 0), ("follow_up_completed", .vbool false)])]⟩,
   [], []⟩

theorem c10_readonly_ops_frame_witness :
    ("priority_order" ∉ c10state.leads_df.cols) ∧
    ((get_filtered_leads_run c10state "a".toList "new".toList "Low".toList).2 = c10state ∧
     (get_unique_statuses_run c10state).2 = c10state ∧
     (get_upcoming_followups_run c10state 0 7).2 = c10state ∧
     (get_overdue_followups_run c10state 0).2 = c10state ∧
     (get_daily_tasks_run c10state 0).2 = c10state ∧
     (get_analytics_run c10state 0).2 = c10state ∧
     (∀ ddf, get_daily_tasks c10state 0 = some ddf → "priority_order" ∉ ddf.cols)) :=
  ⟨by decide,
    c10_readonly_ops_frame c10state "a".toList "new".toList "Low".toList 0 0 7
      (by decide)⟩

/-! ### Claim C1 -/

/-- With an empty search term and priority filter "All", the status filter
compares against the column the mapping designates (falling back to the
literal name `status` only when no mapping entry exists), and skips
filtering when that column is absent. -/
theorem get_filtered_leads_status_only (s : ManagerState) (f : Str)
    (hd : hasData s = true) (hf : f ≠ "All".toList) :
    get_filtered_leads s [] f "All".toList
      = if mapGet s.column_mapping "status" "status" ∈ s.leads_df.cols then
          ⟨s.leads_df.cols, s.leads_df.rows.filter (fun r =>
            containsCi (valToStr (getVal r.2
              (mapGet s.column_mapping "status" "status"))) f)⟩
        else s.leads_df := by
  have h1 : (!hasData s) = false := by rw [hd]; rfl
  rw [get_filtered_leads, h1, if_neg (by simp)]
  simp [hf]
  intro hfa
  exact absurd hfa hf

/-- C1 amended: for the status filter of `get_filtered_leads` and the
status distribution / qualified-lead count of `get_analytics`, the value
consulted is resolved mapping-first: (a) the column designated by the
mapping for 'status' when an entry exists — even when a literal `status`
column also exists — (b) else the literal `status` column; when the
selected column is absent, the consumer degrades (no filter / empty
distribution / zero count) instead of consulting the other column. -/
theorem c1_amended_status_resolution (s : ManagerState) (f : Str) (today : Int)
    (hd : hasData s = true) (hf : f ≠ "All".toList) :
    (get_filtered_leads s [] f "All".toList
      = if mapGet s.column_mapping "status" "status" ∈ s.leads_df.cols then
          ⟨s.leads_df.cols, s.leads_df.rows.filter (fun r =>
            containsCi (valToStr (getVal r.2
              (mapGet s.column_mapping "status" "status"))) f)⟩
        else s.leads_df) ∧
    (∀ a, get_analytics s today = some a →
      a.status_distribution
        = (if mapGet s.column_mapping "status" "status" ∈ s.leads_df.cols then
            valueCounts ((s.leads_df.rows.map (fun r =>
              getVal r.2 (mapGet s.column_mapping "status" "status"))).filter
                (fun v => v ≠ .vnull))
          else []) ∧
      a.qualified_leads
        = (if mapGet s.column_mapping "status" "status" ∈ s.leads_df.cols then
            (["qualified", "closed", "won"].map (fun kw =>
              (s.leads_df.rows.filter (fun r =>
                strContains (lowerStr (valToStr (getVal r.2
                  (mapGet s.column_mapping "status" "status")))) kw.toList)).length)).sum
          else 0)) := by
  refine ⟨get_filtered_leads_status_only s f hd hf, ?_⟩
  intro a ha
  have h1 : (!hasData s) = false := by rw [hd]; rfl
  rw [get_analytics, h1, if_neg (by simp)] at ha
  by_cases hc : "follow_up_date" ∈ s.leads_df.cols ∧
      "follow_up_completed" ∈ s.leads_df.cols ∧ "priority" ∈ s.leads_df.cols
  · rw [if_pos hc] at ha
    have hrec := Option.some.inj ha
    rw [← hrec]
    exact ⟨rfl, rfl⟩
  · rw [if_neg hc] at ha
    cases ha

def c1state : ManagerState :=
  ⟨⟨["status", "stage", "priority", "follow_up_date", "last_contact",
     "follow_up_completed"],
    [(0, [("status", .vstr "qualified".toList), ("stage", .vstr "new".toList)])]⟩,
   [("status", "stage")], []⟩

/-- C1 counterexample: a store whose record has a literal `status` column
containing "qualified" AND a mapped status column `stage` containing
"new". Under the claimed literal-first resolution the status filter
"qualified" would keep the record and `qualified_leads` would be 1; the
code consults the mapped column, returns no rows and counts 0. -/
theorem c1_counterexample_literal_loses :
    ("status" ∈ c1state.leads_df.cols ∧ "stage" ∈ c1state.leads_df.cols) ∧
    (∃ r ∈ c1state.leads_df.rows,
      getVal r.2 "status" = .vstr "qualified".toList) ∧
    (get_filtered_leads c1state [] "qualified".toList "All".toList).rows = [] ∧
    (get_analytics c1state 0).map (fun a => a.qualified_leads) = some 0 := by
  decide

theorem c1_amended_status_resolution_witness :
    (hasData c1state = true ∧ "qualified".toList ≠ "All".toList) ∧
    ((get_filtered_leads c1state [] "qualified".toList "All".toList
      = if mapGet c1state.column_mapping "status" "status" ∈ c1state.leads_df.cols then
          ⟨c1state.leads_df.cols, c1state.leads_df.rows.filter (fun r =>
            containsCi (valToStr (getVal r.2
              (mapGet c1state.column_mapping "status" "status"))) "qualified".toList)⟩
        else c1state.leads_df) ∧
    (∀ a, get_analytics c1state 0 = some a →
      a.status_distribution
        = (if mapGet c1state.column_mapping "status" "status" ∈ c1state.leads_df.cols then
            valueCounts ((c1state.leads_df.rows.map (fun r =>
              getVal r.2 (mapGet c1state.column_mapping "status" "status"))).filter
                (fun v => v ≠ .vnull))
          else []) ∧
      a.qualified_leads
        = (if mapGet c1state.column_mapping "status" "status" ∈ c1state.leads_df.cols then
            (["qualified", "closed", "won"].map (fun kw =>
              (c1state.leads_df.rows.filter (fun r =>
                strContains (lowerStr (valToStr (getVal r.2
                  (mapGet c1state.column_mapping "status" "status")))) kw.toList)).length)).sum
          else 0))) :=
  ⟨⟨by decide, by decide⟩,
    c1_amended_status_resolution c1state "qualified".toList 0 (by decide) (by decide)⟩

end LeadMgr
